import Mathlib

/-!
# Recipe finder (`script.js`): ingredient search and the favourites store

A shallow embedding of the search handler `searchRecipes`, of the two
favourites handlers `toggleFavorite` and `removeFromFavorites`, and of the
start-up line that restores the favourites from `localStorage`, together with
the properties of them that the specification states.

Strings are lists of characters (code points).  `toLowerCase` is the Unicode
default case conversion over the case tables of Unicode 14.0.0, the condition
`Final_Sigma` included; what is proved of it is proved for every well-formed
version of the tables.  A Number is a double, given by its exact value:
`JSON.parse` rounds a literal to the nearest double and `JSON.stringify`
writes the shortest decimal that reads back as the same double, in exponent
form from `1e21`.  A handler that reads or writes the page is modelled by the
pure function from what it reads to what it writes.
-/

namespace RecipeFinder

/-! ## Strings -/

/-- A JavaScript string, as the list of its characters. -/
abbrev JSString := List Char

/-- The characters `String.prototype.trim` strips: ECMAScript `WhiteSpace`
(TAB, VT, FF, ZWNBSP and the space separators) and `LineTerminator`
(LF, CR, LS, PS). -/
def isTrimChar (c : Char) : Bool :=
  let n := c.toNat
  n == 0x09 || n == 0x0A || n == 0x0B || n == 0x0C || n == 0x0D || n == 0x20 ||
  n == 0xA0 || n == 0x1680 || (0x2000 ≤ n && n ≤ 0x200A) ||
  n == 0x2028 || n == 0x2029 || n == 0x202F || n == 0x205F || n == 0x3000 ||
  n == 0xFEFF

/-- `String.prototype.trim`: strip the white space at both ends. -/
def trim (s : JSString) : JSString :=
  (s.dropWhile isTrimChar).rdropWhile isTrimChar

/-- The case tables of the Unicode Character Database that
`String.prototype.toLowerCase` reads: the lowercase mapping of a code point
(`UnicodeData.txt` and the unconditional entries of `SpecialCasing.txt`) and
the properties `Cased` and `Case_Ignorable`. -/
structure CaseData where
  lower : Char → List Char
  cased : Char → Bool
  caseIgnorable : Char → Bool

/-- GREEK CAPITAL LETTER SIGMA, the one character whose lowercase depends on
its neighbours. -/
def capitalSigma : Char := Char.ofNat 0x3A3

/-- GREEK SMALL LETTER FINAL SIGMA. -/
def smallFinalSigma : Char := Char.ofNat 0x3C2

/-- Scanning away from a sigma: after any number of case-ignorable
characters, is the next character cased?  (The scan the engines run in both
directions for the condition `Final_Sigma`.) -/
def followedByCased (U : CaseData) : List Char → Bool
  | [] => false
  | c :: cs => if U.caseIgnorable c then followedByCased U cs else U.cased c

/-- The condition `Final_Sigma` of `SpecialCasing.txt`: a cased letter comes
before (`before` lists the text before, nearest character first) and none
comes after. -/
def isFinalSigma (U : CaseData) (before after : List Char) : Bool :=
  followedByCased U before && !followedByCased U after

/-- The lowercase of the character `c` standing between `before` (nearest
character first) and `after`. -/
def lowerAt (U : CaseData) (before : List Char) (c : Char) (after : List Char) :
    List Char :=
  if c = capitalSigma ∧ isFinalSigma U before after = true then [smallFinalSigma]
  else U.lower c

/-- The lowercase of the piece `s` of a text, standing between `before`
(nearest character first) and `after`. -/
def lowerIn (U : CaseData) : List Char → List Char → List Char → List Char
  | _, [], _ => []
  | before, c :: s, after => lowerAt U before c (s ++ after) ++ lowerIn U (c :: before) s after

/-- `String.prototype.toLowerCase` over the case tables `U`: the Unicode
default case conversion, code point by code point. -/
def toLowerCaseWith (U : CaseData) (s : JSString) : JSString :=
  lowerIn U [] s []

/-- Membership of a code point in a list of closed ranges. -/
def inRanges (ranges : List (Nat × Nat)) (n : Nat) : Bool :=
  ranges.any fun r => r.1 ≤ n && n ≤ r.2

/-- The code points with the property `Cased` (Unicode 14.0.0), as closed
ranges. -/
def casedRanges : List (Nat × Nat) := [
  (0x41, 0x5A), (0x61, 0x7A), (0xAA, 0xAA), (0xB5, 0xB5), (0xBA, 0xBA), (0xC0, 0xD6),
  (0xD8, 0xF6), (0xF8, 0x1BA), (0x1BC, 0x1BF), (0x1C4, 0x293), (0x295, 0x2B8), (0x2C0, 0x2C1),
  (0x2E0, 0x2E4), (0x345, 0x345), (0x370, 0x373), (0x376, 0x377), (0x37A, 0x37D), (0x37F, 0x37F),
  (0x386, 0x386), (0x388, 0x38A), (0x38C, 0x38C), (0x38E, 0x3A1), (0x3A3, 0x3F5), (0x3F7, 0x481),
  (0x48A, 0x52F), (0x531, 0x556), (0x560, 0x588), (0x10A0, 0x10C5), (0x10C7, 0x10C7),
  (0x10CD, 0x10CD), (0x10D0, 0x10FA), (0x10FD, 0x10FF), (0x13A0, 0x13F5), (0x13F8, 0x13FD),
  (0x1C80, 0x1C88), (0x1C90, 0x1CBA), (0x1CBD, 0x1CBF), (0x1D00, 0x1DBF), (0x1E00, 0x1F15),
  (0x1F18, 0x1F1D), (0x1F20, 0x1F45), (0x1F48, 0x1F4D), (0x1F50, 0x1F57), (0x1F59, 0x1F59),
  (0x1F5B, 0x1F5B), (0x1F5D, 0x1F5D), (0x1F5F, 0x1F7D), (0x1F80, 0x1FB4), (0x1FB6, 0x1FBC),
  (0x1FBE, 0x1FBE), (0x1FC2, 0x1FC4), (0x1FC6, 0x1FCC), (0x1FD0, 0x1FD3), (0x1FD6, 0x1FDB),
  (0x1FE0, 0x1FEC), (0x1FF2, 0x1FF4), (0x1FF6, 0x1FFC), (0x2071, 0x2071), (0x207F, 0x207F),
  (0x2090, 0x209C), (0x2102, 0x2102), (0x2107, 0x2107), (0x210A, 0x2113), (0x2115, 0x2115),
  (0x2119, 0x211D), (0x2124, 0x2124), (0x2126, 0x2126), (0x2128, 0x2128), (0x212A, 0x212D),
  (0x212F, 0x2134), (0x2139, 0x2139), (0x213C, 0x213F), (0x2145, 0x2149), (0x214E, 0x214E),
  (0x2160, 0x217F), (0x2183, 0x2184), (0x24B6, 0x24E9), (0x2C00, 0x2CE4), (0x2CEB, 0x2CEE),
  (0x2CF2, 0x2CF3), (0x2D00, 0x2D25), (0x2D27, 0x2D27), (0x2D2D, 0x2D2D), (0xA640, 0xA66D),
  (0xA680, 0xA69D), (0xA722, 0xA787), (0xA78B, 0xA78E), (0xA790, 0xA7CA), (0xA7D0, 0xA7D1),
  (0xA7D3, 0xA7D3), (0xA7D5, 0xA7D9), (0xA7F5, 0xA7F6), (0xA7F8, 0xA7FA), (0xAB30, 0xAB5A),
  (0xAB5C, 0xAB68), (0xAB70, 0xABBF), (0xFB00, 0xFB06), (0xFB13, 0xFB17), (0xFF21, 0xFF3A),
  (0xFF41, 0xFF5A), (0x10400, 0x1044F), (0x104B0, 0x104D3), (0x104D8, 0x104FB),
  (0x10570, 0x1057A), (0x1057C, 0x1058A), (0x1058C, 0x10592), (0x10594, 0x10595),
  (0x10597, 0x105A1), (0x105A3, 0x105B1), (0x105B3, 0x105B9), (0x105BB, 0x105BC),
  (0x10780, 0x10780), (0x10783, 0x10785), (0x10787, 0x107B0), (0x107B2, 0x107BA),
  (0x10C80, 0x10CB2), (0x10CC0, 0x10CF2), (0x118A0, 0x118DF), (0x16E40, 0x16E7F),
  (0x1D400, 0x1D454), (0x1D456, 0x1D49C), (0x1D49E, 0x1D49F), (0x1D4A2, 0x1D4A2),
  (0x1D4A5, 0x1D4A6), (0x1D4A9, 0x1D4AC), (0x1D4AE, 0x1D4B9), (0x1D4BB, 0x1D4BB),
  (0x1D4BD, 0x1D4C3), (0x1D4C5, 0x1D505), (0x1D507, 0x1D50A), (0x1D50D, 0x1D514),
  (0x1D516, 0x1D51C), (0x1D51E, 0x1D539), (0x1D53B, 0x1D53E), (0x1D540, 0x1D544),
  (0x1D546, 0x1D546), (0x1D54A, 0x1D550), (0x1D552, 0x1D6A5), (0x1D6A8, 0x1D6C0),
  (0x1D6C2, 0x1D6DA), (0x1D6DC, 0x1D6FA), (0x1D6FC, 0x1D714), (0x1D716, 0x1D734),
  (0x1D736, 0x1D74E), (0x1D750, 0x1D76E), (0x1D770, 0x1D788), (0x1D78A, 0x1D7A8),
  (0x1D7AA, 0x1D7C2), (0x1D7C4, 0x1D7CB), (0x1DF00, 0x1DF09), (0x1DF0B, 0x1DF1E),
  (0x1E900, 0x1E943), (0x1F130, 0x1F149), (0x1F150, 0x1F169), (0x1F170, 0x1F189) ]

/-- The code points with the property `Case_Ignorable` (Unicode 14.0.0), as
closed ranges. -/
def caseIgnorableRanges : List (Nat × Nat) := [
  (0x27, 0x27), (0x2E, 0x2E), (0x3A, 0x3A), (0x5E, 0x5E), (0x60, 0x60), (0xA8, 0xA8),
  (0xAD, 0xAD), (0xAF, 0xAF), (0xB4, 0xB4), (0xB7, 0xB8), (0x2B0, 0x36F), (0x374, 0x375),
  (0x37A, 0x37A), (0x384, 0x385), (0x387, 0x387), (0x483, 0x489), (0x559, 0x559), (0x55F, 0x55F),
  (0x591, 0x5BD), (0x5BF, 0x5BF), (0x5C1, 0x5C2), (0x5C4, 0x5C5), (0x5C7, 0x5C7), (0x5F4, 0x5F4),
  (0x600, 0x605), (0x610, 0x61A), (0x61C, 0x61C), (0x640, 0x640), (0x64B, 0x65F), (0x670, 0x670),
  (0x6D6, 0x6DD), (0x6DF, 0x6E8), (0x6EA, 0x6ED), (0x70F, 0x70F), (0x711, 0x711), (0x730, 0x74A),
  (0x7A6, 0x7B0), (0x7EB, 0x7F5), (0x7FA, 0x7FA), (0x7FD, 0x7FD), (0x816, 0x82D), (0x859, 0x85B),
  (0x888, 0x888), (0x890, 0x891), (0x898, 0x89F), (0x8C9, 0x902), (0x93A, 0x93A), (0x93C, 0x93C),
  (0x941, 0x948), (0x94D, 0x94D), (0x951, 0x957), (0x962, 0x963), (0x971, 0x971), (0x981, 0x981),
  (0x9BC, 0x9BC), (0x9C1, 0x9C4), (0x9CD, 0x9CD), (0x9E2, 0x9E3), (0x9FE, 0x9FE), (0xA01, 0xA02),
  (0xA3C, 0xA3C), (0xA41, 0xA42), (0xA47, 0xA48), (0xA4B, 0xA4D), (0xA51, 0xA51), (0xA70, 0xA71),
  (0xA75, 0xA75), (0xA81, 0xA82), (0xABC, 0xABC), (0xAC1, 0xAC5), (0xAC7, 0xAC8), (0xACD, 0xACD),
  (0xAE2, 0xAE3), (0xAFA, 0xAFF), (0xB01, 0xB01), (0xB3C, 0xB3C), (0xB3F, 0xB3F), (0xB41, 0xB44),
  (0xB4D, 0xB4D), (0xB55, 0xB56), (0xB62, 0xB63), (0xB82, 0xB82), (0xBC0, 0xBC0), (0xBCD, 0xBCD),
  (0xC00, 0xC00), (0xC04, 0xC04), (0xC3C, 0xC3C), (0xC3E, 0xC40), (0xC46, 0xC48), (0xC4A, 0xC4D),
  (0xC55, 0xC56), (0xC62, 0xC63), (0xC81, 0xC81), (0xCBC, 0xCBC), (0xCBF, 0xCBF), (0xCC6, 0xCC6),
  (0xCCC, 0xCCD), (0xCE2, 0xCE3), (0xD00, 0xD01), (0xD3B, 0xD3C), (0xD41, 0xD44), (0xD4D, 0xD4D),
  (0xD62, 0xD63), (0xD81, 0xD81), (0xDCA, 0xDCA), (0xDD2, 0xDD4), (0xDD6, 0xDD6), (0xE31, 0xE31),
  (0xE34, 0xE3A), (0xE46, 0xE4E), (0xEB1, 0xEB1), (0xEB4, 0xEBC), (0xEC6, 0xEC6), (0xEC8, 0xECD),
  (0xF18, 0xF19), (0xF35, 0xF35), (0xF37, 0xF37), (0xF39, 0xF39), (0xF71, 0xF7E), (0xF80, 0xF84),
  (0xF86, 0xF87), (0xF8D, 0xF97), (0xF99, 0xFBC), (0xFC6, 0xFC6), (0x102D, 0x1030),
  (0x1032, 0x1037), (0x1039, 0x103A), (0x103D, 0x103E), (0x1058, 0x1059), (0x105E, 0x1060),
  (0x1071, 0x1074), (0x1082, 0x1082), (0x1085, 0x1086), (0x108D, 0x108D), (0x109D, 0x109D),
  (0x10FC, 0x10FC), (0x135D, 0x135F), (0x1712, 0x1714), (0x1732, 0x1733), (0x1752, 0x1753),
  (0x1772, 0x1773), (0x17B4, 0x17B5), (0x17B7, 0x17BD), (0x17C6, 0x17C6), (0x17C9, 0x17D3),
  (0x17D7, 0x17D7), (0x17DD, 0x17DD), (0x180B, 0x180F), (0x1843, 0x1843), (0x1885, 0x1886),
  (0x18A9, 0x18A9), (0x1920, 0x1922), (0x1927, 0x1928), (0x1932, 0x1932), (0x1939, 0x193B),
  (0x1A17, 0x1A18), (0x1A1B, 0x1A1B), (0x1A56, 0x1A56), (0x1A58, 0x1A5E), (0x1A60, 0x1A60),
  (0x1A62, 0x1A62), (0x1A65, 0x1A6C), (0x1A73, 0x1A7C), (0x1A7F, 0x1A7F), (0x1AA7, 0x1AA7),
  (0x1AB0, 0x1ACE), (0x1B00, 0x1B03), (0x1B34, 0x1B34), (0x1B36, 0x1B3A), (0x1B3C, 0x1B3C),
  (0x1B42, 0x1B42), (0x1B6B, 0x1B73), (0x1B80, 0x1B81), (0x1BA2, 0x1BA5), (0x1BA8, 0x1BA9),
  (0x1BAB, 0x1BAD), (0x1BE6, 0x1BE6), (0x1BE8, 0x1BE9), (0x1BED, 0x1BED), (0x1BEF, 0x1BF1),
  (0x1C2C, 0x1C33), (0x1C36, 0x1C37), (0x1C78, 0x1C7D), (0x1CD0, 0x1CD2), (0x1CD4, 0x1CE0),
  (0x1CE2, 0x1CE8), (0x1CED, 0x1CED), (0x1CF4, 0x1CF4), (0x1CF8, 0x1CF9), (0x1D2C, 0x1D6A),
  (0x1D78, 0x1D78), (0x1D9B, 0x1DFF), (0x1FBD, 0x1FBD), (0x1FBF, 0x1FC1), (0x1FCD, 0x1FCF),
  (0x1FDD, 0x1FDF), (0x1FED, 0x1FEF), (0x1FFD, 0x1FFE), (0x200B, 0x200F), (0x2018, 0x2019),
  (0x2024, 0x2024), (0x2027, 0x2027), (0x202A, 0x202E), (0x2060, 0x2064), (0x2066, 0x206F),
  (0x2071, 0x2071), (0x207F, 0x207F), (0x2090, 0x209C), (0x20D0, 0x20F0), (0x2C7C, 0x2C7D),
  (0x2CEF, 0x2CF1), (0x2D6F, 0x2D6F), (0x2D7F, 0x2D7F), (0x2DE0, 0x2DFF), (0x2E2F, 0x2E2F),
  (0x3005, 0x3005), (0x302A, 0x302D), (0x3031, 0x3035), (0x303B, 0x303B), (0x3099, 0x309E),
  (0x30FC, 0x30FE), (0xA015, 0xA015), (0xA4F8, 0xA4FD), (0xA60C, 0xA60C), (0xA66F, 0xA672),
  (0xA674, 0xA67D), (0xA67F, 0xA67F), (0xA69C, 0xA69F), (0xA6F0, 0xA6F1), (0xA700, 0xA721),
  (0xA770, 0xA770), (0xA788, 0xA78A), (0xA7F2, 0xA7F4), (0xA7F8, 0xA7F9), (0xA802, 0xA802),
  (0xA806, 0xA806), (0xA80B, 0xA80B), (0xA825, 0xA826), (0xA82C, 0xA82C), (0xA8C4, 0xA8C5),
  (0xA8E0, 0xA8F1), (0xA8FF, 0xA8FF), (0xA926, 0xA92D), (0xA947, 0xA951), (0xA980, 0xA982),
  (0xA9B3, 0xA9B3), (0xA9B6, 0xA9B9), (0xA9BC, 0xA9BD), (0xA9CF, 0xA9CF), (0xA9E5, 0xA9E6),
  (0xAA29, 0xAA2E), (0xAA31, 0xAA32), (0xAA35, 0xAA36), (0xAA43, 0xAA43), (0xAA4C, 0xAA4C),
  (0xAA70, 0xAA70), (0xAA7C, 0xAA7C), (0xAAB0, 0xAAB0), (0xAAB2, 0xAAB4), (0xAAB7, 0xAAB8),
  (0xAABE, 0xAABF), (0xAAC1, 0xAAC1), (0xAADD, 0xAADD), (0xAAEC, 0xAAED), (0xAAF3, 0xAAF4),
  (0xAAF6, 0xAAF6), (0xAB5B, 0xAB5F), (0xAB69, 0xAB6B), (0xABE5, 0xABE5), (0xABE8, 0xABE8),
  (0xABED, 0xABED), (0xFB1E, 0xFB1E), (0xFBB2, 0xFBC2), (0xFE00, 0xFE0F), (0xFE13, 0xFE13),
  (0xFE20, 0xFE2F), (0xFE52, 0xFE52), (0xFE55, 0xFE55), (0xFEFF, 0xFEFF), (0xFF07, 0xFF07),
  (0xFF0E, 0xFF0E), (0xFF1A, 0xFF1A), (0xFF3E, 0xFF3E), (0xFF40, 0xFF40), (0xFF70, 0xFF70),
  (0xFF9E, 0xFF9F), (0xFFE3, 0xFFE3), (0xFFF9, 0xFFFB), (0x101FD, 0x101FD), (0x102E0, 0x102E0),
  (0x10376, 0x1037A), (0x10780, 0x10785), (0x10787, 0x107B0), (0x107B2, 0x107BA),
  (0x10A01, 0x10A03), (0x10A05, 0x10A06), (0x10A0C, 0x10A0F), (0x10A38, 0x10A3A),
  (0x10A3F, 0x10A3F), (0x10AE5, 0x10AE6), (0x10D24, 0x10D27), (0x10EAB, 0x10EAC),
  (0x10F46, 0x10F50), (0x10F82, 0x10F85), (0x11001, 0x11001), (0x11038, 0x11046),
  (0x11070, 0x11070), (0x11073, 0x11074), (0x1107F, 0x11081), (0x110B3, 0x110B6),
  (0x110B9, 0x110BA), (0x110BD, 0x110BD), (0x110C2, 0x110C2), (0x110CD, 0x110CD),
  (0x11100, 0x11102), (0x11127, 0x1112B), (0x1112D, 0x11134), (0x11173, 0x11173),
  (0x11180, 0x11181), (0x111B6, 0x111BE), (0x111C9, 0x111CC), (0x111CF, 0x111CF),
  (0x1122F, 0x11231), (0x11234, 0x11234), (0x11236, 0x11237), (0x1123E, 0x1123E),
  (0x112DF, 0x112DF), (0x112E3, 0x112EA), (0x11300, 0x11301), (0x1133B, 0x1133C),
  (0x11340, 0x11340), (0x11366, 0x1136C), (0x11370, 0x11374), (0x11438, 0x1143F),
  (0x11442, 0x11444), (0x11446, 0x11446), (0x1145E, 0x1145E), (0x114B3, 0x114B8),
  (0x114BA, 0x114BA), (0x114BF, 0x114C0), (0x114C2, 0x114C3), (0x115B2, 0x115B5),
  (0x115BC, 0x115BD), (0x115BF, 0x115C0), (0x115DC, 0x115DD), (0x11633, 0x1163A),
  (0x1163D, 0x1163D), (0x1163F, 0x11640), (0x116AB, 0x116AB), (0x116AD, 0x116AD),
  (0x116B0, 0x116B5), (0x116B7, 0x116B7), (0x1171D, 0x1171F), (0x11722, 0x11725),
  (0x11727, 0x1172B), (0x1182F, 0x11837), (0x11839, 0x1183A), (0x1193B, 0x1193C),
  (0x1193E, 0x1193E), (0x11943, 0x11943), (0x119D4, 0x119D7), (0x119DA, 0x119DB),
  (0x119E0, 0x119E0), (0x11A01, 0x11A0A), (0x11A33, 0x11A38), (0x11A3B, 0x11A3E),
  (0x11A47, 0x11A47), (0x11A51, 0x11A56), (0x11A59, 0x11A5B), (0x11A8A, 0x11A96),
  (0x11A98, 0x11A99), (0x11C30, 0x11C36), (0x11C38, 0x11C3D), (0x11C3F, 0x11C3F),
  (0x11C92, 0x11CA7), (0x11CAA, 0x11CB0), (0x11CB2, 0x11CB3), (0x11CB5, 0x11CB6),
  (0x11D31, 0x11D36), (0x11D3A, 0x11D3A), (0x11D3C, 0x11D3D), (0x11D3F, 0x11D45),
  (0x11D47, 0x11D47), (0x11D90, 0x11D91), (0x11D95, 0x11D95), (0x11D97, 0x11D97),
  (0x11EF3, 0x11EF4), (0x13430, 0x13438), (0x16AF0, 0x16AF4), (0x16B30, 0x16B36),
  (0x16B40, 0x16B43), (0x16F4F, 0x16F4F), (0x16F8F, 0x16F9F), (0x16FE0, 0x16FE1),
  (0x16FE3, 0x16FE4), (0x1AFF0, 0x1AFF3), (0x1AFF5, 0x1AFFB), (0x1AFFD, 0x1AFFE),
  (0x1BC9D, 0x1BC9E), (0x1BCA0, 0x1BCA3), (0x1CF00, 0x1CF2D), (0x1CF30, 0x1CF46),
  (0x1D167, 0x1D169), (0x1D173, 0x1D182), (0x1D185, 0x1D18B), (0x1D1AA, 0x1D1AD),
  (0x1D242, 0x1D244), (0x1DA00, 0x1DA36), (0x1DA3B, 0x1DA6C), (0x1DA75, 0x1DA75),
  (0x1DA84, 0x1DA84), (0x1DA9B, 0x1DA9F), (0x1DAA1, 0x1DAAF), (0x1E000, 0x1E006),
  (0x1E008, 0x1E018), (0x1E01B, 0x1E021), (0x1E023, 0x1E024), (0x1E026, 0x1E02A),
  (0x1E130, 0x1E13D), (0x1E2AE, 0x1E2AE), (0x1E2EC, 0x1E2EF), (0x1E8D0, 0x1E8D6),
  (0x1E944, 0x1E94B), (0x1F3FB, 0x1F3FF), (0xE0001, 0xE0001), (0xE0020, 0xE007F),
  (0xE0100, 0xE01EF) ]

/-- The code points whose lowercase mapping is one other code point
(Unicode 14.0.0): `(first, last, step, image)` stands for the code points
`first`, `first + step`, ... up to `last`, and `first + i` is mapped to
`image + i`. -/
def lowercaseRanges : List (Nat × Nat × Nat × Nat) := [
  (0x41, 0x5A, 1, 0x61), (0xC0, 0xD6, 1, 0xE0), (0xD8, 0xDE, 1, 0xF8), (0x100, 0x12E, 2, 0x101),
  (0x132, 0x136, 2, 0x133), (0x139, 0x147, 2, 0x13A), (0x14A, 0x176, 2, 0x14B),
  (0x178, 0x178, 1, 0xFF), (0x179, 0x17D, 2, 0x17A), (0x181, 0x181, 1, 0x253),
  (0x182, 0x184, 2, 0x183), (0x186, 0x186, 1, 0x254), (0x187, 0x187, 1, 0x188),
  (0x189, 0x18A, 1, 0x256), (0x18B, 0x18B, 1, 0x18C), (0x18E, 0x18E, 1, 0x1DD),
  (0x18F, 0x18F, 1, 0x259), (0x190, 0x190, 1, 0x25B), (0x191, 0x191, 1, 0x192),
  (0x193, 0x193, 1, 0x260), (0x194, 0x194, 1, 0x263), (0x196, 0x196, 1, 0x269),
  (0x197, 0x197, 1, 0x268), (0x198, 0x198, 1, 0x199), (0x19C, 0x19C, 1, 0x26F),
  (0x19D, 0x19D, 1, 0x272), (0x19F, 0x19F, 1, 0x275), (0x1A0, 0x1A4, 2, 0x1A1),
  (0x1A6, 0x1A6, 1, 0x280), (0x1A7, 0x1A7, 1, 0x1A8), (0x1A9, 0x1A9, 1, 0x283),
  (0x1AC, 0x1AC, 1, 0x1AD), (0x1AE, 0x1AE, 1, 0x288), (0x1AF, 0x1AF, 1, 0x1B0),
  (0x1B1, 0x1B2, 1, 0x28A), (0x1B3, 0x1B5, 2, 0x1B4), (0x1B7, 0x1B7, 1, 0x292),
  (0x1B8, 0x1B8, 1, 0x1B9), (0x1BC, 0x1BC, 1, 0x1BD), (0x1C4, 0x1C4, 1, 0x1C6),
  (0x1C5, 0x1C5, 1, 0x1C6), (0x1C7, 0x1C7, 1, 0x1C9), (0x1C8, 0x1C8, 1, 0x1C9),
  (0x1CA, 0x1CA, 1, 0x1CC), (0x1CB, 0x1DB, 2, 0x1CC), (0x1DE, 0x1EE, 2, 0x1DF),
  (0x1F1, 0x1F1, 1, 0x1F3), (0x1F2, 0x1F4, 2, 0x1F3), (0x1F6, 0x1F6, 1, 0x195),
  (0x1F7, 0x1F7, 1, 0x1BF), (0x1F8, 0x21E, 2, 0x1F9), (0x220, 0x220, 1, 0x19E),
  (0x222, 0x232, 2, 0x223), (0x23A, 0x23A, 1, 0x2C65), (0x23B, 0x23B, 1, 0x23C),
  (0x23D, 0x23D, 1, 0x19A), (0x23E, 0x23E, 1, 0x2C66), (0x241, 0x241, 1, 0x242),
  (0x243, 0x243, 1, 0x180), (0x244, 0x244, 1, 0x289), (0x245, 0x245, 1, 0x28C),
  (0x246, 0x24E, 2, 0x247), (0x370, 0x372, 2, 0x371), (0x376, 0x376, 1, 0x377),
  (0x37F, 0x37F, 1, 0x3F3), (0x386, 0x386, 1, 0x3AC), (0x388, 0x38A, 1, 0x3AD),
  (0x38C, 0x38C, 1, 0x3CC), (0x38E, 0x38F, 1, 0x3CD), (0x391, 0x3A1, 1, 0x3B1),
  (0x3A3, 0x3AB, 1, 0x3C3), (0x3CF, 0x3CF, 1, 0x3D7), (0x3D8, 0x3EE, 2, 0x3D9),
  (0x3F4, 0x3F4, 1, 0x3B8), (0x3F7, 0x3F7, 1, 0x3F8), (0x3F9, 0x3F9, 1, 0x3F2),
  (0x3FA, 0x3FA, 1, 0x3FB), (0x3FD, 0x3FF, 1, 0x37B), (0x400, 0x40F, 1, 0x450),
  (0x410, 0x42F, 1, 0x430), (0x460, 0x480, 2, 0x461), (0x48A, 0x4BE, 2, 0x48B),
  (0x4C0, 0x4C0, 1, 0x4CF), (0x4C1, 0x4CD, 2, 0x4C2), (0x4D0, 0x52E, 2, 0x4D1),
  (0x531, 0x556, 1, 0x561), (0x10A0, 0x10C5, 1, 0x2D00), (0x10C7, 0x10C7, 1, 0x2D27),
  (0x10CD, 0x10CD, 1, 0x2D2D), (0x13A0, 0x13EF, 1, 0xAB70), (0x13F0, 0x13F5, 1, 0x13F8),
  (0x1C90, 0x1CBA, 1, 0x10D0), (0x1CBD, 0x1CBF, 1, 0x10FD), (0x1E00, 0x1E94, 2, 0x1E01),
  (0x1E9E, 0x1E9E, 1, 0xDF), (0x1EA0, 0x1EFE, 2, 0x1EA1), (0x1F08, 0x1F0F, 1, 0x1F00),
  (0x1F18, 0x1F1D, 1, 0x1F10), (0x1F28, 0x1F2F, 1, 0x1F20), (0x1F38, 0x1F3F, 1, 0x1F30),
  (0x1F48, 0x1F4D, 1, 0x1F40), (0x1F59, 0x1F5F, 2, 0x1F51), (0x1F68, 0x1F6F, 1, 0x1F60),
  (0x1F88, 0x1F8F, 1, 0x1F80), (0x1F98, 0x1F9F, 1, 0x1F90), (0x1FA8, 0x1FAF, 1, 0x1FA0),
  (0x1FB8, 0x1FB9, 1, 0x1FB0), (0x1FBA, 0x1FBB, 1, 0x1F70), (0x1FBC, 0x1FBC, 1, 0x1FB3),
  (0x1FC8, 0x1FCB, 1, 0x1F72), (0x1FCC, 0x1FCC, 1, 0x1FC3), (0x1FD8, 0x1FD9, 1, 0x1FD0),
  (0x1FDA, 0x1FDB, 1, 0x1F76), (0x1FE8, 0x1FE9, 1, 0x1FE0), (0x1FEA, 0x1FEB, 1, 0x1F7A),
  (0x1FEC, 0x1FEC, 1, 0x1FE5), (0x1FF8, 0x1FF9, 1, 0x1F78), (0x1FFA, 0x1FFB, 1, 0x1F7C),
  (0x1FFC, 0x1FFC, 1, 0x1FF3), (0x2126, 0x2126, 1, 0x3C9), (0x212A, 0x212A, 1, 0x6B),
  (0x212B, 0x212B, 1, 0xE5), (0x2132, 0x2132, 1, 0x214E), (0x2160, 0x216F, 1, 0x2170),
  (0x2183, 0x2183, 1, 0x2184), (0x24B6, 0x24CF, 1, 0x24D0), (0x2C00, 0x2C2F, 1, 0x2C30),
  (0x2C60, 0x2C60, 1, 0x2C61), (0x2C62, 0x2C62, 1, 0x26B), (0x2C63, 0x2C63, 1, 0x1D7D),
  (0x2C64, 0x2C64, 1, 0x27D), (0x2C67, 0x2C6B, 2, 0x2C68), (0x2C6D, 0x2C6D, 1, 0x251),
  (0x2C6E, 0x2C6E, 1, 0x271), (0x2C6F, 0x2C6F, 1, 0x250), (0x2C70, 0x2C70, 1, 0x252),
  (0x2C72, 0x2C72, 1, 0x2C73), (0x2C75, 0x2C75, 1, 0x2C76), (0x2C7E, 0x2C7F, 1, 0x23F),
  (0x2C80, 0x2CE2, 2, 0x2C81), (0x2CEB, 0x2CED, 2, 0x2CEC), (0x2CF2, 0x2CF2, 1, 0x2CF3),
  (0xA640, 0xA66C, 2, 0xA641), (0xA680, 0xA69A, 2, 0xA681), (0xA722, 0xA72E, 2, 0xA723),
  (0xA732, 0xA76E, 2, 0xA733), (0xA779, 0xA77B, 2, 0xA77A), (0xA77D, 0xA77D, 1, 0x1D79),
  (0xA77E, 0xA786, 2, 0xA77F), (0xA78B, 0xA78B, 1, 0xA78C), (0xA78D, 0xA78D, 1, 0x265),
  (0xA790, 0xA792, 2, 0xA791), (0xA796, 0xA7A8, 2, 0xA797), (0xA7AA, 0xA7AA, 1, 0x266),
  (0xA7AB, 0xA7AB, 1, 0x25C), (0xA7AC, 0xA7AC, 1, 0x261), (0xA7AD, 0xA7AD, 1, 0x26C),
  (0xA7AE, 0xA7AE, 1, 0x26A), (0xA7B0, 0xA7B0, 1, 0x29E), (0xA7B1, 0xA7B1, 1, 0x287),
  (0xA7B2, 0xA7B2, 1, 0x29D), (0xA7B3, 0xA7B3, 1, 0xAB53), (0xA7B4, 0xA7C2, 2, 0xA7B5),
  (0xA7C4, 0xA7C4, 1, 0xA794), (0xA7C5, 0xA7C5, 1, 0x282), (0xA7C6, 0xA7C6, 1, 0x1D8E),
  (0xA7C7, 0xA7C9, 2, 0xA7C8), (0xA7D0, 0xA7D0, 1, 0xA7D1), (0xA7D6, 0xA7D8, 2, 0xA7D7),
  (0xA7F5, 0xA7F5, 1, 0xA7F6), (0xFF21, 0xFF3A, 1, 0xFF41), (0x10400, 0x10427, 1, 0x10428),
  (0x104B0, 0x104D3, 1, 0x104D8), (0x10570, 0x10594, 2, 0x10597), (0x10571, 0x1057A, 1, 0x10598),
  (0x1057C, 0x1058A, 1, 0x105A3), (0x1058C, 0x10592, 1, 0x105B3), (0x10594, 0x10595, 1, 0x105BB),
  (0x10C80, 0x10CB2, 1, 0x10CC0), (0x118A0, 0x118BF, 1, 0x118C0), (0x16E40, 0x16E5F, 1, 0x16E60),
  (0x1E900, 0x1E921, 1, 0x1E922) ]

/-- The lowercase mapping of a code point that is one other code point. -/
def simpleLowercase (n : Nat) : Option Nat :=
  (lowercaseRanges.find? fun r => r.1 ≤ n && n ≤ r.2.1 && (n - r.1) % r.2.2.1 == 0).map
    fun r => r.2.2.2 + (n - r.1)

/-- The lowercase mapping of Unicode 14.0.0: LATIN CAPITAL LETTER I WITH DOT
ABOVE becomes `i` and COMBINING DOT ABOVE, a code point of `lowercaseRanges`
its image, any other code point itself. -/
def unicodeLower (c : Char) : List Char :=
  if c.toNat = 0x130 then [Char.ofNat 0x69, Char.ofNat 0x307]
  else
    match simpleLowercase c.toNat with
    | some m => [Char.ofNat m]
    | none => [c]

/-- The property `Cased` of Unicode 14.0.0. -/
def unicodeCased (c : Char) : Bool :=
  inRanges casedRanges c.toNat

/-- The property `Case_Ignorable` of Unicode 14.0.0. -/
def unicodeCaseIgnorable (c : Char) : Bool :=
  inRanges caseIgnorableRanges c.toNat

/-- The case tables of Unicode 14.0.0. -/
def unicode : CaseData where
  lower := unicodeLower
  cased := unicodeCased
  caseIgnorable := unicodeCaseIgnorable

/-- `String.prototype.toLowerCase`. -/
def toLowerCase (s : JSString) : JSString :=
  toLowerCaseWith unicode s

/-- `String.prototype.split(",")`: the pieces between the commas; a string
without a comma, the empty one included, is one piece. -/
def split (s : JSString) : List JSString :=
  s.splitOn ','

/-- What the proofs below need of the case tables, true of every version of
the Unicode Character Database: a mapping is never empty, the comma and the
white space `trim` strips are mapped to themselves and come out of no other
mapping, the comma is neither cased nor case-ignorable, and white space is not
cased. -/
structure CaseData.WellFormed (U : CaseData) : Prop where
  lower_ne_nil : ∀ c, U.lower c ≠ []
  lower_separator : ∀ c, (c = ',' ∨ isTrimChar c = true) → U.lower c = [c]
  separator_of_mem : ∀ c d, d ∈ U.lower c → (d = ',' ∨ isTrimChar d = true) → c = d
  comma_not_cased : U.cased ',' = false
  comma_not_ignorable : U.caseIgnorable ',' = false
  space_not_cased : ∀ c, isTrimChar c = true → U.cased c = false

/-- The code points `trim` strips. -/
def trimCodes : List Nat :=
  [0x09, 0x0A, 0x0B, 0x0C, 0x0D, 0x20, 0xA0, 0x1680, 0x2000, 0x2001, 0x2002, 0x2003, 0x2004,
    0x2005, 0x2006, 0x2007, 0x2008, 0x2009, 0x200A, 0x2028, 0x2029, 0x202F, 0x205F, 0x3000,
    0xFEFF]

/-- `Array.prototype.join(",")` on an array of strings. -/
def join (l : List JSString) : JSString :=
  List.intercalate [','] l

/-! ## The catalog -/

/-- A recipe record of the catalog. -/
structure Recipe where
  id : Int
  name : String
  ingredients : List JSString
  description : String
  image : String
deriving DecidableEq

/-- The constant `recipes` of `script.js`. -/
def recipes : List Recipe := [
  { id := 1,
    name := "Margherita Pizza",
    ingredients := ["tomato", "mozzarella", "basil"].map String.toList,
    description := "A classic Italian pizza with fresh ingredients.",
    image := "marg_pizza.jpeg?height=200&width=300" },
  { id := 2,
    name := "Caprese Salad",
    ingredients := ["tomato", "mozzarella", "basil", "olive oil"].map String.toList,
    description := "A simple and delicious salad from Capri.",
    image := "/caprese_salad.jpeg?height=200&width=300" },
  { id := 3,
    name := "Grilled Cheese Sandwich",
    ingredients := ["bread", "cheese", "butter"].map String.toList,
    description := "A comforting classic sandwich.",
    image := "/cheese.jpeg?height=200&width=300" },
  { id := 4,
    name := "Tomato Soup",
    ingredients := ["tomato", "onion", "garlic", "cream"].map String.toList,
    description := "A warm and creamy soup perfect for any day.",
    image := "/tomato.jpeg?height=200&width=300" },
  { id := 5,
    name := "Vegetable Stir Fry",
    ingredients :=
      ["broccoli", "carrot", "bell pepper", "soy sauce", "garlic"].map String.toList,
    description := "A quick and healthy vegetable stir fry with Asian flavors.",
    image := "/stir.jpeg?height=200&width=300" },
  { id := 6,
    name := "Chocolate Chip Cookies",
    ingredients :=
      ["flour", "butter", "sugar", "chocolate chips", "eggs"].map String.toList,
    description := "Classic homemade chocolate chip cookies, soft and chewy.",
    image := "/choco_cookie.jpeg?height=200&width=300" },
  { id := 7,
    name := "Greek Salad",
    ingredients :=
      ["cucumber", "tomato", "red onion", "feta cheese", "olives"].map String.toList,
    description := "A refreshing Mediterranean salad with tangy feta cheese.",
    image := "/greek_salad.jpeg?height=200&width=300" },
  { id := 8,
    name := "Mushroom Risotto",
    ingredients :=
      ["rice", "mushrooms", "onion", "garlic", "parmesan"].map String.toList,
    description := "Creamy Italian rice dish with savory mushrooms and parmesan.",
    image := "/mush.jpeg?height=200&width=300" },
  { id := 9,
    name := "Avocado Toast",
    ingredients :=
      ["bread", "avocado", "lemon juice", "salt", "red pepper flakes"].map String.toList,
    description :=
      "A trendy and nutritious breakfast or snack with creamy avocado on toasted bread.",
    image := "/avo.jpeg?height=200&width=300" } ]

/-! ## Search -/

/-- The local `ingredients` of `searchRecipes`: the input value lower-cased,
split on the comma, each piece trimmed. -/
def searchIngredients (value : JSString) : List JSString :=
  (split (toLowerCase value)).map trim

/-- The handler `searchRecipes`, as the list it hands to `displayRecipes`,
for the text `value` of the ingredients field. -/
def searchRecipes (value : JSString) : List Recipe :=
  let ingredients := searchIngredients value
  if trim value = [] then
    recipes
  else
    recipes.filter fun recipe =>
      ingredients.all fun ingredient => recipe.ingredients.contains ingredient

/-- The normalisation of a query in the specification's words: split on the
comma, trim each token, lower-case each token. -/
def specTokens (query : JSString) : List JSString :=
  (split query).map fun token => toLowerCase (trim token)

/-! ## Numbers, JSON and the start-up line -/

/-- A Number that is not `NaN`: a finite double, given by its exact value (the
sign of zero is not kept: no operation of the program tells `-0` from `0`), or
an infinity. -/
inductive JSNumber where
  | finite (value : ℚ)
  | infinity (negative : Bool)
deriving DecidableEq

/-- A value `JSON.parse` can return.  A String is the list of its UTF-16 code
units; an Object is the list of its members as written. -/
inductive JSValue where
  | null
  | bool (b : Bool)
  | number (x : JSNumber)
  | string (units : List Nat)
  | array (items : List JSValue)
  | object (members : List (List Nat × JSValue))

/-- The exception a built-in throws. -/
inductive JSError where
  | syntaxError
deriving DecidableEq

/-- The number of binary digits of `n`, reading at most `fuel` of them. -/
def bitLengthAux : Nat → Nat → Nat
  | 0, _ => 0
  | fuel + 1, n => if n = 0 then 0 else bitLengthAux fuel (n / 2) + 1

/-- The number of binary digits of `n`. -/
def bitLength (n : Nat) : Nat :=
  bitLengthAux n n

/-- The double nearest to `p / q`, ties to the even significand (IEEE 754
`roundTiesToEven` to binary64), as its exact value; `none` when the rounding
overflows.  `e` is the binary exponent of `p / q`, `k` the exponent of the
last place of the double (not below `-1074`, the subnormals) and `m` the
significand, so that the double is `m * 2 ^ k`; it overflows when it has more
than 1024 binary digits. -/
def roundMagnitude (p q : Nat) : Option ℚ :=
  if p = 0 then some 0
  else
    let a := bitLength p
    let b := bitLength q
    let e : Int := if q * 2 ^ a ≤ p * 2 ^ b then (a : Int) - b else (a : Int) - b - 1
    let k : Int := max (e - 52) (-1074)
    let num := p * 2 ^ (-k).toNat
    let den := q * 2 ^ k.toNat
    let d := num / den
    let r := num % den
    let m := if 2 * r < den then d else if den < 2 * r then d + 1 else d + d % 2
    if 1024 < bitLength m + k.toNat then none
    else some (mkRat ((m * 2 ^ k.toNat : Nat) : Int) (2 ^ (-k).toNat))

/-- The Number for the real number `p / q`, negated when `negative`. -/
def roundToDouble (negative : Bool) (p q : Nat) : JSNumber :=
  match roundMagnitude p q with
  | none => .infinity negative
  | some v => .finite (if negative then -v else v)

/-- Is the integer `n` a Number, that is, exactly a double? -/
def isNumber (n : Int) : Bool :=
  decide (roundMagnitude n.natAbs 1 = some (n.natAbs : ℚ))

/-- The multiple of `10 ^ j` nearest to the double `x` among the two around
it that round to `x`, if one does: of two that do, the nearer one, and the one
with the even digit when they are as near. -/
def nearestMultiple (x j : Nat) : Option Nat :=
  let p := 10 ^ j
  let lo := x / p * p
  let hi := lo + p
  let okLo := decide (roundMagnitude lo 1 = some (x : ℚ))
  let okHi := decide (roundMagnitude hi 1 = some (x : ℚ))
  if okLo && okHi then
    if x - lo < hi - x then some lo
    else if hi - x < x - lo then some hi
    else if (lo / p) % 2 = 0 then some lo else some hi
  else if okLo then some lo
  else if okHi then some hi
  else none

/-- The shortest decimal for `x`, trying the multiples of `10 ^ (j - 1)`, then
of `10 ^ (j - 2)`, down to the multiples of 1. -/
def shortestFrom (x : Nat) : Nat → Nat
  | 0 => x
  | j + 1 =>
    match nearestMultiple x j with
    | some v => v
    | none => shortestFrom x j

/-- The integer with the fewest significant digits that rounds to the double
`x`, the one `Number::toString` writes the digits of. -/
def shortestDecimal (x : Nat) : Nat :=
  shortestFrom x (Nat.toDigits 10 x).length

/-- `Number::toString` on a non-negative integer: the digits of its shortest
decimal when they are at most 21, else the significant digits, a dot after
the first when there are more, and the exponent. -/
def unsignedToString (x : Nat) : JSString :=
  let digits := Nat.toDigits 10 (shortestDecimal x)
  if digits.length ≤ 21 then digits
  else
    match digits.rdropWhile (· == '0') with
    | [] => digits
    | [d] => d :: 'e' :: '+' :: Nat.toDigits 10 (digits.length - 1)
    | d :: rest => d :: '.' :: (rest ++ 'e' :: '+' :: Nat.toDigits 10 (digits.length - 1))

/-- The text `JSON.stringify` writes for a Number that is an integer. -/
def numberToString (n : Int) : JSString :=
  if n < 0 then '-' :: unsignedToString n.natAbs else unsignedToString n.natAbs

/-- `JSON.stringify` on an array of integers. -/
def stringify (a : List Int) : JSString :=
  '[' :: (List.intercalate [','] (a.map numberToString) ++ [']'])

/-- JSON white space: space, TAB, LF, CR. -/
def isJSONWhiteSpace (c : Char) : Bool :=
  c == ' ' || c == '\t' || c == '\n' || c == '\r'

def skipWhiteSpace (cs : List Char) : List Char :=
  cs.dropWhile isJSONWhiteSpace

/-- Read the leading decimal digits: their value on top of `acc`, their
number on top of `count`, and the rest of the text. -/
def takeDigits : List Char → Nat → Nat → Nat × Nat × List Char
  | [], acc, count => (acc, count, [])
  | c :: cs, acc, count =>
    if c.isDigit then takeDigits cs (acc * 10 + (c.toNat - 48)) (count + 1)
    else (acc, count, c :: cs)

/-- The optional fraction of a JSON number: a dot and at least one digit. -/
def parseFraction (cs : List Char) : Option (Nat × Nat × List Char) :=
  match cs with
  | [] => some (0, 0, [])
  | c :: rest =>
    if c == '.' then
      let r := takeDigits rest 0 0
      if r.2.1 = 0 then none else some r
    else some (0, 0, c :: rest)

/-- The optional exponent of a JSON number: `e` or `E`, an optional sign and
at least one digit. -/
def parseExponent (cs : List Char) : Option (Int × List Char) :=
  match cs with
  | [] => some (0, [])
  | c :: rest =>
    if c == 'e' || c == 'E' then
      let negative := rest.head? == some '-'
      let digits := if rest.head? == some '-' || rest.head? == some '+' then rest.tail else rest
      let r := takeDigits digits 0 0
      if r.2.1 = 0 then none
      else some (if negative then -(r.1 : Int) else (r.1 : Int), r.2.2)
    else some (0, c :: rest)

/-- The Number a JSON number literal denotes: its digits `intPart`, and
`fracPart` on `fracCount` places, times ten to the `exponent`, rounded to a
double. -/
def decimalValue (negative : Bool) (intPart fracPart fracCount : Nat) (exponent : Int) :
    JSNumber :=
  let mantissa := intPart * 10 ^ fracCount + fracPart
  let scale : Int := exponent - fracCount
  roundToDouble negative (mantissa * 10 ^ scale.toNat) (10 ^ (-scale).toNat)

/-- A JSON number: an optional minus, `0` or a digit string without a leading
zero, an optional fraction, an optional exponent. -/
def parseNumber (cs : List Char) : Option (JSNumber × List Char) :=
  let negative := cs.head? == some '-'
  match (if negative then cs.tail else cs) with
  | [] => none
  | c :: rest =>
    if !c.isDigit then none
    else
      let intRead : Nat × Nat × List Char :=
        if c == '0' then (0, 1, rest) else takeDigits (c :: rest) 0 0
      match parseFraction intRead.2.2 with
      | none => none
      | some (fracPart, fracCount, afterFrac) =>
        match parseExponent afterFrac with
        | none => none
        | some (exponent, afterExp) =>
          some (decimalValue negative intRead.1 fracPart fracCount exponent, afterExp)

/-- The value of a hexadecimal digit. -/
def hexValue (c : Char) : Option Nat :=
  if c.isDigit then some (c.toNat - 48)
  else if 'a' ≤ c ∧ c ≤ 'f' then some (c.toNat - 87)
  else if 'A' ≤ c ∧ c ≤ 'F' then some (c.toNat - 55)
  else none

/-- The code unit of the four hexadecimal digits of a `\u` escape. -/
def hex4 (a b c d : Char) : Option Nat :=
  match hexValue a, hexValue b, hexValue c, hexValue d with
  | some a, some b, some c, some d => some (((a * 16 + b) * 16 + c) * 16 + d)
  | _, _, _, _ => none

/-- The code unit of a one-letter escape. -/
def escapeUnit (c : Char) : Option Nat :=
  if c == '"' then some 0x22
  else if c == '\\' then some 0x5C
  else if c == '/' then some 0x2F
  else if c == 'b' then some 0x08
  else if c == 'f' then some 0x0C
  else if c == 'n' then some 0x0A
  else if c == 'r' then some 0x0D
  else if c == 't' then some 0x09
  else none

/-- The UTF-16 code units of a character. -/
def utf16 (c : Char) : List Nat :=
  if c.toNat < 0x10000 then [c.toNat]
  else [0xD800 + (c.toNat - 0x10000) / 0x400, 0xDC00 + (c.toNat - 0x10000) % 0x400]

/-- The characters of a JSON string after its opening quote, up to the
closing quote: `acc` holds the code units read so far, last first. -/
def parseChars : List Char → List Nat → Option (List Nat × List Char)
  | [], _ => none
  | c :: rest, acc =>
    if c == '"' then some (acc.reverse, rest)
    else if c == '\\' then
      match rest with
      | [] => none
      | e :: rest1 =>
        if e == 'u' then
          match rest1 with
          | h1 :: h2 :: h3 :: h4 :: rest2 =>
            match hex4 h1 h2 h3 h4 with
            | some u => parseChars rest2 (u :: acc)
            | none => none
          | _ => none
        else
          match escapeUnit e with
          | some u => parseChars rest1 (u :: acc)
          | none => none
    else if c.toNat < 0x20 then none
    else parseChars rest ((utf16 c).reverse ++ acc)

/-- Does the text start with the literal `lit`?  If so, what follows it. -/
def afterLiteral (lit : List Char) (cs : List Char) : Option (List Char) :=
  if lit.isPrefixOf cs then some (cs.drop lit.length) else none

mutual
/-- A JSON value, after optional white space.  `fuel` bounds the nesting. -/
def parseValue : Nat → List Char → Option (JSValue × List Char)
  | 0, _ => none
  | fuel + 1, cs =>
    match skipWhiteSpace cs with
    | [] => none
    | c :: rest =>
      if c == '[' then
        match skipWhiteSpace rest with
        | [] => none
        | d :: rest1 =>
          if d == ']' then some (.array [], rest1)
          else
            match parseElements fuel (d :: rest1) with
            | some (items, rest2) => some (.array items, rest2)
            | none => none
      else if c == '{' then
        match skipWhiteSpace rest with
        | [] => none
        | d :: rest1 =>
          if d == '}' then some (.object [], rest1)
          else
            match parseMembers fuel (d :: rest1) with
            | some (members, rest2) => some (.object members, rest2)
            | none => none
      else if c == '"' then
        match parseChars rest [] with
        | some (units, rest1) => some (.string units, rest1)
        | none => none
      else if c == 'n' then (afterLiteral "null".toList (c :: rest)).map fun r => (.null, r)
      else if c == 't' then
        (afterLiteral "true".toList (c :: rest)).map fun r => (.bool true, r)
      else if c == 'f' then
        (afterLiteral "false".toList (c :: rest)).map fun r => (.bool false, r)
      else
        match parseNumber (c :: rest) with
        | some (mv, rest1) => some (.number mv, rest1)
        | none => none
/-- The elements of a non-empty array, up to its closing bracket. -/
def parseElements : Nat → List Char → Option (List JSValue × List Char)
  | 0, _ => none
  | fuel + 1, cs =>
    match parseValue fuel cs with
    | none => none
    | some (v, rest) =>
      match skipWhiteSpace rest with
      | [] => none
      | d :: rest1 =>
        if d == ',' then
          match parseElements fuel rest1 with
          | some (vs, rest2) => some (v :: vs, rest2)
          | none => none
        else if d == ']' then some ([v], rest1)
        else none
/-- The members of a non-empty object, up to its closing brace. -/
def parseMembers : Nat → List Char → Option (List (List Nat × JSValue) × List Char)
  | 0, _ => none
  | fuel + 1, cs =>
    match skipWhiteSpace cs with
    | [] => none
    | q :: rest =>
      if q == '"' then
        match parseChars rest [] with
        | none => none
        | some (key, rest1) =>
          match skipWhiteSpace rest1 with
          | [] => none
          | colon :: rest2 =>
            if colon == ':' then
              match parseValue fuel rest2 with
              | none => none
              | some (v, rest3) =>
                match skipWhiteSpace rest3 with
                | [] => none
                | d :: rest4 =>
                  if d == ',' then
                    match parseMembers fuel rest4 with
                    | some (ms, rest5) => some ((key, v) :: ms, rest5)
                    | none => none
                  else if d == '}' then some ([(key, v)], rest4)
                  else none
            else none
      else none
end

/-- `JSON.parse` on a text. -/
def JSON.parse (text : JSString) : Except JSError JSValue :=
  match parseValue (2 * text.length + 2) text with
  | none => .error .syntaxError
  | some (v, rest) =>
    if skipWhiteSpace rest = [] then .ok v else .error .syntaxError

/-- The value of a string of decimal digits. -/
def digitsValue : List Char → Nat
  | [] => 0
  | c :: l => (c.toNat - 48) * 10 ^ l.length + digitsValue l

/-- `ToBoolean`, as the operator `||` applies it. -/
def toBoolean : JSValue → Bool
  | .null => false
  | .bool b => b
  | .number (.finite value) => value ≠ 0
  | .number (.infinity _) => true
  | .string units => units ≠ []
  | .array _ => true
  | .object _ => true

/-- Line 78, `const favorites = JSON.parse(localStorage.getItem("favorites")) || [];`
for the item stored under `"favorites"` (`none` when the key is absent, and
`getItem` returns `null`, which `JSON.parse` reads as the text `null`). -/
def loadFavorites (stored : Option JSString) : Except JSError JSValue :=
  let text : JSString := match stored with
    | none => "null".toList
    | some s => s
  match JSON.parse text with
  | .error e => .error e
  | .ok v => if toBoolean v then .ok v else .ok (.array [])

/-- The array of Numbers that a favourites list is. -/
def favoritesValue (favorites : List Int) : JSValue :=
  .array (favorites.map fun (n : Int) => .number (.finite (n : ℚ)))

/-! ## Favourites -/

/-- `Array.prototype.indexOf`, searching from position `k`: the index of the
first element equal to `x`, or `-1`. -/
def indexOfFrom (x : Int) : List Int → Nat → Int
  | [], _ => -1
  | y :: ys, k => if y = x then (k : Int) else indexOfFrom x ys (k + 1)

/-- `Array.prototype.indexOf` on an array of integers. -/
def indexOf (a : List Int) (x : Int) : Int :=
  indexOfFrom x a 0

/-- `Array.prototype.splice(start, deleteCount)` with no item to insert, as the
array it leaves: a negative `start` counts from the end, and both arguments
are clamped to the array. -/
def splice (a : List Int) (start deleteCount : Int) : List Int :=
  let len : Int := a.length
  let actualStart : Int := if start < 0 then max (len + start) 0 else min start len
  let actualDeleteCount : Int := min (max deleteCount 0) (len - actualStart)
  a.take actualStart.toNat ++ a.drop (actualStart.toNat + actualDeleteCount.toNat)

/-- `Array.prototype.push` of one item. -/
def push (a : List Int) (x : Int) : List Int :=
  a ++ [x]

/-- `Array.prototype.includes`, as `displayRecipes` uses it to tell whether a
recipe is a favourite. -/
def isFavorite (favorites : List Int) (recipeId : Int) : Bool :=
  favorites.contains recipeId

/-- What the favourites handlers read and write: the array `favorites`, here
an array of integers (the handlers only ever put a recipe id into it; an
integer of JavaScript is one that `isNumber` accepts), and the item stored in
`localStorage` under the key `"favorites"` (`none` when the key is
absent). -/
structure Store where
  favorites : List Int
  stored : Option JSString
deriving DecidableEq

/-- The handler `toggleFavorite` for a click on the button of recipe
`recipeId`, the integer `Number.parseInt` reads from the `data-id` that
`displayRecipes` wrote from `recipe.id`: the new store and the new text of the
button.  The call of `displayFavorites` that ends the handler redraws the
page and changes neither. -/
def toggleFavorite (s : Store) (recipeId : Int) : Store × String :=
  let index := indexOf s.favorites recipeId
  let (favorites, textContent) :=
    if index = -1 then
      (push s.favorites recipeId, "Remove from Favorites")
    else
      (splice s.favorites index 1, "Add to Favorites")
  ({ favorites := favorites, stored := some (stringify favorites) }, textContent)

/-- The handler `removeFromFavorites` for a click on the remove button of
recipe `recipeId`. -/
def removeFromFavorites (s : Store) (recipeId : Int) : Store :=
  let index := indexOf s.favorites recipeId
  let favorites := if index ≠ -1 then splice s.favorites index 1 else s.favorites
  { favorites := favorites, stored := some (stringify favorites) }

/-- A click the favourites handlers serve. -/
inductive Event where
  | toggle (recipeId : Int)
  | remove (recipeId : Int)
deriving DecidableEq

/-- The store after one click. -/
def handle (s : Store) : Event → Store
  | .toggle recipeId => (toggleFavorite s recipeId).1
  | .remove recipeId => removeFromFavorites s recipeId

/-- The store after a sequence of clicks, each handler running to completion
before the next. -/
def run (s : Store) (events : List Event) : Store :=
  events.foldl handle s

/-- The store of a first visit: no favourite, nothing stored. -/
def emptyStore : Store :=
  { favorites := [], stored := none }

/-! ## Lower-casing, the comma and white space -/

theorem isTrimChar_iff (c : Char) : isTrimChar c = true ↔ c.toNat ∈ trimCodes := by
  unfold isTrimChar trimCodes
  simp only [Bool.or_eq_true, beq_iff_eq, Bool.and_eq_true, decide_eq_true_eq, List.mem_cons,
    List.mem_singleton, List.not_mem_nil, or_false]
  omega

theorem comma_iff (c : Char) : c = ',' ↔ c.toNat = 44 := by
  constructor
  · rintro rfl
    rfl
  · intro h
    apply Char.ext
    apply UInt32.val_injective
    apply Fin.ext
    exact h

theorem capitalSigma_not_separator :
    capitalSigma ≠ ',' ∧ isTrimChar capitalSigma = false ∧
      smallFinalSigma ≠ ',' ∧ isTrimChar smallFinalSigma = false := by
  decide

theorem followedByCased_append_comma (U : CaseData) (hU : U.WellFormed) (x y : List Char) :
    followedByCased U (x ++ ',' :: y) = followedByCased U x := by
  induction x with
  | nil => simp [followedByCased, hU.comma_not_ignorable, hU.comma_not_cased]
  | cons c x ih =>
    rw [List.cons_append, followedByCased, followedByCased, ih]

theorem followedByCased_append_space (U : CaseData) (hU : U.WellFormed) (x w : List Char)
    (hw : ∀ c ∈ w, isTrimChar c = true) :
    followedByCased U (x ++ w) = followedByCased U x := by
  induction x with
  | nil =>
    rw [List.nil_append]
    induction w with
    | nil => rfl
    | cons c w ih =>
      simp only [followedByCased, hU.space_not_cased c (hw c (List.mem_cons_self _ _)),
        ih (fun d hd => hw d (List.mem_cons_of_mem _ hd)), ite_self]
  | cons c x ih =>
    rw [List.cons_append, followedByCased, followedByCased, ih]

theorem lowerIn_cons (U : CaseData) (b : List Char) (c : Char) (s a : List Char) :
    lowerIn U b (c :: s) a = lowerAt U b c (s ++ a) ++ lowerIn U (c :: b) s a := rfl

theorem lowerAt_congr (U : CaseData) (b b' : List Char) (c : Char) (a a' : List Char)
    (hb : followedByCased U b = followedByCased U b')
    (ha : followedByCased U a = followedByCased U a') :
    lowerAt U b c a = lowerAt U b' c a' := by
  unfold lowerAt isFinalSigma
  rw [hb, ha]

/-- Lower-casing a piece does not see a change of what stands before it that
the scan for a cased letter does not see. -/
theorem lowerIn_congr_before (U : CaseData) (w w' : List Char)
    (h : ∀ x, followedByCased U (x ++ w) = followedByCased U (x ++ w')) :
    ∀ (s x a : List Char), lowerIn U (x ++ w) s a = lowerIn U (x ++ w') s a := by
  intro s
  induction s with
  | nil => intro x a; rfl
  | cons c s ih =>
    intro x a
    rw [lowerIn_cons, lowerIn_cons, lowerAt_congr U _ (x ++ w') c _ _ (h x) rfl]
    have := ih (c :: x) a
    rw [List.cons_append, List.cons_append] at this
    rw [this]

/-- Lower-casing a piece does not see a change of what stands after it that
the scan for a cased letter does not see. -/
theorem lowerIn_congr_after (U : CaseData) (w w' : List Char)
    (h : ∀ x, followedByCased U (x ++ w) = followedByCased U (x ++ w')) :
    ∀ (s b y : List Char), lowerIn U b s (y ++ w) = lowerIn U b s (y ++ w') := by
  intro s
  induction s with
  | nil => intro b y; rfl
  | cons c s ih =>
    intro b y
    rw [lowerIn_cons, lowerIn_cons, ih (c :: b) y]
    congr 1
    apply lowerAt_congr U b b c _ _ rfl
    rw [← List.append_assoc, ← List.append_assoc]
    exact h (s ++ y)

theorem lowerIn_append (U : CaseData) :
    ∀ (x b y a : List Char),
      lowerIn U b (x ++ y) a = lowerIn U b x (y ++ a) ++ lowerIn U (x.reverse ++ b) y a := by
  intro x
  induction x with
  | nil => intro b y a; rfl
  | cons c x ih =>
    intro b y a
    rw [List.cons_append, lowerIn_cons, lowerIn_cons, ih (c :: b) y a, List.append_assoc,
      List.append_assoc, List.reverse_cons, List.append_assoc, List.singleton_append]

theorem lowerAt_separator (U : CaseData) (hU : U.WellFormed) (b a : List Char) (c : Char)
    (hc : c = ',' ∨ isTrimChar c = true) : lowerAt U b c a = [c] := by
  have hne : c ≠ capitalSigma := by
    rintro rfl
    rcases hc with h | h
    · exact capitalSigma_not_separator.1 h
    · rw [capitalSigma_not_separator.2.1] at h
      exact Bool.false_ne_true h
  unfold lowerAt
  simp only [hne, false_and, ↓reduceIte, hU.lower_separator c hc]

theorem lowerAt_ne_nil (U : CaseData) (hU : U.WellFormed) (b a : List Char) (c : Char) :
    lowerAt U b c a ≠ [] := by
  unfold lowerAt
  split
  · simp
  · exact hU.lower_ne_nil c

theorem lowerAt_mem (U : CaseData) (hU : U.WellFormed) (b a : List Char) (c d : Char)
    (hd : d ∈ lowerAt U b c a) (hs : d = ',' ∨ isTrimChar d = true) : c = d := by
  unfold lowerAt at hd
  split at hd
  · rw [List.mem_singleton] at hd
    subst hd
    rcases hs with h | h
    · exact absurd h capitalSigma_not_separator.2.2.1
    · rw [capitalSigma_not_separator.2.2.2] at h
      exact absurd h Bool.false_ne_true
  · exact hU.separator_of_mem c d hd hs

/-! ## Lower-casing and `split` -/

theorem split_nil : split [] = [[]] := rfl

theorem split_cons_comma (s : JSString) : split (',' :: s) = [] :: split s := by
  unfold split List.splitOn
  rw [List.splitOnP_cons]
  simp

theorem split_cons_ne (c : Char) (s t : JSString) (ts : List JSString) (hc : c ≠ ',')
    (h : split s = t :: ts) : split (c :: s) = (c :: t) :: ts := by
  unfold split List.splitOn at h ⊢
  rw [List.splitOnP_cons, h]
  simp [hc, List.modifyHead]

theorem split_ne_nil (s : JSString) : ∃ t ts, split s = t :: ts := by
  have h : split s ≠ [] := List.splitOnP_ne_nil _ _
  cases hs : split s with
  | nil => exact absurd hs h
  | cons t ts => exact ⟨t, ts, rfl⟩

theorem split_append (p s t : JSString) (ts : List JSString) (hp : ∀ d ∈ p, d ≠ ',')
    (h : split s = t :: ts) : split (p ++ s) = (p ++ t) :: ts := by
  induction p with
  | nil => exact h
  | cons d p ih =>
    rw [List.cons_append, split_cons_ne d (p ++ s) (p ++ t) ts (hp d (List.mem_cons_self _ _))
      (ih fun e he => hp e (List.mem_cons_of_mem _ he))]
    rfl

/-- The first piece of a split is the text up to its end or up to a comma. -/
theorem split_head (s : JSString) :
    ∀ t ts, split s = t :: ts → s = t ∨ ∃ r, s = t ++ ',' :: r := by
  induction s with
  | nil =>
    intro t ts h
    rw [split_nil] at h
    left
    exact (List.cons.inj h).1
  | cons c s ih =>
    intro t ts h
    by_cases hc : c = ','
    · subst hc
      rw [split_cons_comma] at h
      right
      exact ⟨s, by rw [← (List.cons.inj h).1]; rfl⟩
    · obtain ⟨t', ts', h'⟩ := split_ne_nil s
      rw [split_cons_ne c s t' ts' hc h'] at h
      have ht : c :: t' = t := (List.cons.inj h).1
      rcases ih t' ts' h' with e | ⟨r, e⟩
      · left
        rw [← ht, ← e]
      · right
        exact ⟨r, by rw [← ht, List.cons_append, ← e]⟩

theorem split_lowerIn (U : CaseData) (hU : U.WellFormed) (s : JSString) :
    ∀ b t ts, split s = t :: ts →
      split (lowerIn U b s []) = lowerIn U b t [] :: ts.map (toLowerCaseWith U) := by
  have cut : ∀ x b s, lowerIn U (x ++ ',' :: b) s [] = lowerIn U (x ++ []) s [] :=
    fun x b s => lowerIn_congr_before U (',' :: b) [] (fun y => by
      rw [followedByCased_append_comma U hU, List.append_nil]) s x []
  induction s with
  | nil =>
    intro b t ts h
    rw [split_nil] at h
    obtain ⟨rfl, rfl⟩ := List.cons.inj h
    rfl
  | cons c s ih =>
    intro b t ts h
    obtain ⟨t', ts', h'⟩ := split_ne_nil s
    by_cases hc : c = ','
    · subst hc
      rw [split_cons_comma, h'] at h
      obtain ⟨rfl, rfl⟩ := List.cons.inj h
      rw [lowerIn_cons, lowerAt_separator U hU b _ ',' (Or.inl rfl), List.singleton_append,
        split_cons_comma, ih (',' :: b) t' ts' h']
      have := cut [] b t'
      rw [List.nil_append, List.nil_append] at this
      rw [this]
      rfl
    · rw [split_cons_ne c s t' ts' hc h'] at h
      obtain ⟨rfl, rfl⟩ := List.cons.inj h
      have hp : ∀ d ∈ lowerAt U b c (s ++ []), d ≠ ',' := by
        intro d hd hcomma
        exact hc ((lowerAt_mem U hU b _ c d hd (Or.inl hcomma)).trans hcomma)
      rw [lowerIn_cons, split_append _ _ _ _ hp (ih (c :: b) t' ts' h'), lowerIn_cons]
      congr 2
      apply lowerAt_congr U b b c _ _ rfl
      rw [List.append_nil, List.append_nil]
      rcases split_head s t' ts' h' with e | ⟨r, e⟩
      · rw [← e]
      · rw [e, followedByCased_append_comma U hU]

theorem split_toLowerCaseWith (U : CaseData) (hU : U.WellFormed) (s : JSString) :
    split (toLowerCaseWith U s) = (split s).map (toLowerCaseWith U) := by
  obtain ⟨t, ts, h⟩ := split_ne_nil s
  unfold toLowerCaseWith
  rw [split_lowerIn U hU s [] t ts h, h]
  rfl

/-! ## Lower-casing and `trim` -/

theorem lowerIn_space_before (U : CaseData) (hU : U.WellFormed) (w : List Char)
    (hw : ∀ c ∈ w, isTrimChar c = true) (s a : List Char) :
    lowerIn U w s a = lowerIn U [] s a := by
  have := lowerIn_congr_before U w [] (fun x => by
    rw [followedByCased_append_space U hU x w hw, List.append_nil]) s [] a
  rw [List.nil_append, List.nil_append] at this
  exact this

theorem lowerIn_space_after (U : CaseData) (hU : U.WellFormed) (w : List Char)
    (hw : ∀ c ∈ w, isTrimChar c = true) (s b : List Char) :
    lowerIn U b s w = lowerIn U b s [] := by
  have := lowerIn_congr_after U w [] (fun x => by
    rw [followedByCased_append_space U hU x w hw, List.append_nil]) s b []
  rw [List.nil_append, List.nil_append] at this
  exact this

theorem dropWhile_lowerIn (U : CaseData) (hU : U.WellFormed) (a : List Char) :
    ∀ (s b : List Char), ∃ w, (∀ c ∈ w, isTrimChar c = true) ∧
      (lowerIn U b s a).dropWhile isTrimChar =
        lowerIn U (w ++ b) (s.dropWhile isTrimChar) a := by
  intro s
  induction s with
  | nil => intro b; exact ⟨[], by simp, rfl⟩
  | cons c s ih =>
    intro b
    by_cases hc : isTrimChar c = true
    · obtain ⟨w, hw, e⟩ := ih (c :: b)
      refine ⟨w ++ [c], ?_, ?_⟩
      · intro d hd
        rcases List.mem_append.mp hd with h | h
        · exact hw d h
        · rw [List.mem_singleton.mp h]
          exact hc
      · rw [lowerIn_cons, lowerAt_separator U hU b _ c (Or.inr hc), List.singleton_append,
          List.dropWhile_cons_of_pos hc, List.dropWhile_cons_of_pos hc, e, List.append_assoc,
          List.singleton_append]
    · refine ⟨[], by simp, ?_⟩
      rw [List.dropWhile_cons_of_neg hc, List.nil_append, lowerIn_cons]
      cases hp : lowerAt U b c (s ++ a) with
      | nil => exact absurd hp (lowerAt_ne_nil U hU b _ c)
      | cons d p =>
        have hd : ¬ isTrimChar d = true := by
          intro h
          have := lowerAt_mem U hU b (s ++ a) c d (by rw [hp]; exact List.mem_cons_self _ _)
            (Or.inr h)
          rw [this] at hc
          exact hc h
        rw [List.cons_append, List.dropWhile_cons_of_neg hd]

theorem dropWhile_toLowerCaseWith (U : CaseData) (hU : U.WellFormed) (s : JSString) :
    (toLowerCaseWith U s).dropWhile isTrimChar =
      toLowerCaseWith U (s.dropWhile isTrimChar) := by
  obtain ⟨w, hw, e⟩ := dropWhile_lowerIn U hU [] s []
  unfold toLowerCaseWith
  rw [e, List.append_nil, lowerIn_space_before U hU w hw]

theorem rdropWhile_toLowerCaseWith (U : CaseData) (hU : U.WellFormed) (s : JSString) :
    (toLowerCaseWith U s).rdropWhile isTrimChar =
      toLowerCaseWith U (s.rdropWhile isTrimChar) := by
  induction s using List.reverseRecOn with
  | nil => rfl
  | append_singleton s c ih =>
    have e : toLowerCaseWith U (s ++ [c]) =
        lowerIn U [] s [c] ++ lowerAt U s.reverse c [] := by
      unfold toLowerCaseWith
      rw [lowerIn_append, List.append_nil, List.append_nil, lowerIn_cons, List.append_nil]
      show _ ++ (_ ++ []) = _
      rw [List.append_nil]
    by_cases hc : isTrimChar c = true
    · rw [e, lowerAt_separator U hU _ _ c (Or.inr hc),
        lowerIn_space_after U hU [c] (by simpa using hc), List.rdropWhile_concat_pos _ _ _ hc,
        List.rdropWhile_concat_pos _ _ _ hc]
      exact ih
    · rw [List.rdropWhile_concat_neg _ _ _ hc, e]
      rcases List.eq_nil_or_concat (lowerAt U s.reverse c []) with hp | ⟨p, d, hp⟩
      · exact absurd hp (lowerAt_ne_nil U hU _ _ c)
      · have hd : ¬ isTrimChar d = true := by
          intro h
          have := lowerAt_mem U hU s.reverse [] c d (by rw [hp]; simp) (Or.inr h)
          rw [this] at hc
          exact hc h
        rw [hp, List.concat_eq_append, ← List.append_assoc,
          List.rdropWhile_concat_neg _ _ _ hd]

theorem trim_toLowerCaseWith (U : CaseData) (hU : U.WellFormed) (s : JSString) :
    trim (toLowerCaseWith U s) = toLowerCaseWith U (trim s) := by
  unfold trim
  rw [dropWhile_toLowerCaseWith U hU, rdropWhile_toLowerCaseWith U hU]

/-- Over well-formed case tables the two normalisations of a query agree:
lower-casing the whole value before the split and the trim, as the code does,
gives the tokens split, trimmed and then lower-cased. -/
theorem tokens_toLowerCaseWith (U : CaseData) (hU : U.WellFormed) (value : JSString) :
    (split (toLowerCaseWith U value)).map trim =
      (split value).map fun token => toLowerCaseWith U (trim token) := by
  rw [split_toLowerCaseWith U hU, List.map_map]
  apply List.map_congr_left
  intro t _
  exact trim_toLowerCaseWith U hU t

/-! ## The tables of Unicode 14.0.0 are well formed -/

theorem separator_codes (c : Char) (h : c = ',' ∨ isTrimChar c = true) :
    c.toNat ∈ 44 :: trimCodes := by
  rcases h with h | h
  · rw [(comma_iff c).mp h]
    exact List.mem_cons_self _ _
  · exact List.mem_cons_of_mem _ ((isTrimChar_iff c).mp h)

set_option maxRecDepth 100000 in
theorem simpleLowercase_separator :
    ∀ n ∈ 44 :: trimCodes, n ≠ 0x130 ∧ simpleLowercase n = none ∧
      inRanges casedRanges n = false := by
  decide

set_option maxRecDepth 100000 in
theorem lowercaseRanges_image :
    ∀ r ∈ lowercaseRanges, ∀ w ∈ 0 :: 44 :: trimCodes,
      w < r.2.2.2 ∨ r.2.2.2 + (r.2.1 - r.1) < w := by
  decide

theorem simpleLowercase_image (n m : Nat) (h : simpleLowercase n = some m) :
    m ∉ 0 :: 44 :: trimCodes := by
  unfold simpleLowercase at h
  rw [Option.map_eq_some'] at h
  obtain ⟨r, hr, rfl⟩ := h
  have hmem := List.mem_of_find?_eq_some hr
  have hp := List.find?_some hr
  simp only [Bool.and_eq_true, decide_eq_true_eq] at hp
  intro hw
  rcases lowercaseRanges_image r hmem _ hw with h1 | h1
  · omega
  · omega

theorem ofNat_toNat (m : Nat) : (Char.ofNat m).toNat = m ∨ (Char.ofNat m).toNat = 0 := by
  unfold Char.ofNat
  split
  · left
    rfl
  · right
    rfl

set_option maxRecDepth 100000 in
theorem unicodeCaseIgnorable_comma : unicodeCaseIgnorable ',' = false := by
  decide

theorem unicodeCased_separator (c : Char) (h : c = ',' ∨ isTrimChar c = true) :
    unicodeCased c = false :=
  (simpleLowercase_separator _ (separator_codes c h)).2.2

theorem unicode_wellFormed : unicode.WellFormed where
  lower_ne_nil := by
    intro c
    show unicodeLower c ≠ []
    unfold unicodeLower
    split
    · simp
    · split <;> simp
  lower_separator := by
    intro c hc
    obtain ⟨h1, h2, _⟩ := simpleLowercase_separator _ (separator_codes c hc)
    show unicodeLower c = [c]
    unfold unicodeLower
    simp only [h1, ↓reduceIte, h2]
  separator_of_mem := by
    intro c d hd hs
    have hcode := separator_codes d hs
    have key : ∀ m, m ∉ 0 :: 44 :: trimCodes → d = Char.ofNat m → False := by
      intro m hm e
      rcases ofNat_toNat m with h | h
      · rw [e, h] at hcode
        exact hm (List.mem_cons_of_mem _ hcode)
      · rw [e, h] at hcode
        revert hcode
        decide
    change d ∈ unicodeLower c at hd
    unfold unicodeLower at hd
    split at hd
    · exfalso
      simp only [List.mem_cons, List.mem_singleton, List.not_mem_nil, or_false] at hd
      rcases hd with e | e
      · exact key 0x69 (by decide) e
      · exact key 0x307 (by decide) e
    · split at hd
      · rename_i m hm
        exact (key m (simpleLowercase_image _ m hm) (List.mem_singleton.mp hd)).elim
      · exact (List.mem_singleton.mp hd).symm
  comma_not_cased := by
    have e : unicode.cased = unicodeCased := rfl
    rw [e]
    exact unicodeCased_separator ',' (Or.inl rfl)
  comma_not_ignorable := by
    have e : unicode.caseIgnorable = unicodeCaseIgnorable := rfl
    rw [e]
    exact unicodeCaseIgnorable_comma
  space_not_cased := by
    intro c hc
    have e : unicode.cased = unicodeCased := rfl
    rw [e]
    exact unicodeCased_separator c (Or.inr hc)

/-- The two normalisations agree: lower-casing the whole value before the
split, as the code does, gives the tokens of the specification. -/
theorem searchIngredients_eq_specTokens (value : JSString) :
    searchIngredients value = specTokens value :=
  tokens_toLowerCaseWith unicode unicode_wellFormed value

/-! ## Search: what is displayed -/

theorem searchRecipes_subset (value : JSString) :
    ∀ r ∈ searchRecipes value, r ∈ recipes := by
  intro r hr
  unfold searchRecipes at hr
  simp only [] at hr
  split at hr
  · exact hr
  · exact (List.mem_filter.mp hr).1

theorem catalog_no_empty_ingredient : ∀ r ∈ recipes, ([] : JSString) ∉ r.ingredients := by
  decide

theorem catalog_round_trip : ∀ r ∈ recipes, r ∈ searchRecipes (join r.ingredients) := by
  decide

theorem searchRecipes_eq_filter (query : JSString) (h : trim query ≠ []) :
    searchRecipes query =
      recipes.filter (fun r => (specTokens query).all fun t => r.ingredients.contains t) := by
  rw [← searchIngredients_eq_specTokens]
  unfold searchRecipes searchIngredients
  simp only [h, ↓reduceIte]

/-- C1: for a query whose trimmed text is not empty, the list `searchRecipes`
hands to `displayRecipes` is the catalog filtered, in catalog order, by
"every token of the query (split on the comma, trimmed, lower-cased) is one of
the recipe's ingredients": a recipe is displayed exactly when it is in the
catalog and holds all the tokens.  The tokens the code computes (lower-case
the whole query, split, trim) are these tokens over every well-formed version
of the Unicode case tables, not only over the one fixed here. -/
theorem searchRecipes_conjunctive (query : JSString) (h : trim query ≠ []) :
    searchRecipes query =
        recipes.filter (fun r => (specTokens query).all fun t => r.ingredients.contains t) ∧
      (∀ r, r ∈ searchRecipes query ↔
        r ∈ recipes ∧ ∀ t ∈ specTokens query, t ∈ r.ingredients) ∧
      (searchRecipes query).Sublist recipes ∧
      ∀ U : CaseData, U.WellFormed →
        (split (toLowerCaseWith U query)).map trim =
          (split query).map fun token => toLowerCaseWith U (trim token) := by
  have e := searchRecipes_eq_filter query h
  refine ⟨e, ?_, ?_, fun U hU => tokens_toLowerCaseWith U hU query⟩
  · intro r
    rw [e]
    simp [List.mem_filter]
  · rw [e]
    exact List.filter_sublist _

set_option maxRecDepth 100000 in
/-- The query of this instance holds U+212A KELVIN SIGN, whose lowercase is
`k`: recipe 9 is displayed. -/
theorem searchRecipes_conjunctive_witness :
    trim " Red Pepper Fla\u212Aes,BREAD ".toList ≠ [] ∧
      searchRecipes " Red Pepper Fla\u212Aes,BREAD ".toList =
        recipes.filter (fun r =>
          (specTokens " Red Pepper Fla\u212Aes,BREAD ".toList).all fun t =>
            r.ingredients.contains t) ∧
      (searchRecipes " Red Pepper Fla\u212Aes,BREAD ".toList).map (·.id) = [9] ∧
      (split (toLowerCaseWith unicode " Red Pepper Fla\u212Aes,BREAD ".toList)).map trim =
        (split " Red Pepper Fla\u212Aes,BREAD ".toList).map fun token =>
          toLowerCaseWith unicode (trim token) :=
  ⟨by decide,
    (searchRecipes_conjunctive " Red Pepper Fla\u212Aes,BREAD ".toList (by decide)).1,
    by decide,
    (searchRecipes_conjunctive " Red Pepper Fla\u212Aes,BREAD ".toList (by decide)).2.2.2
      unicode unicode_wellFormed⟩

/-- C2: for a query that is empty after trimming (the empty string or white
space only), `searchRecipes` displays the whole catalog, unchanged. -/
theorem searchRecipes_blank (query : JSString) (h : trim query = []) :
    searchRecipes query = recipes := by
  unfold searchRecipes
  simp only [h, ↓reduceIte]

theorem searchRecipes_blank_witness :
    trim " \t ".toList = [] ∧ searchRecipes " \t ".toList = recipes :=
  ⟨by decide, searchRecipes_blank " \t ".toList (by decide)⟩

/-- C8: round trip over the catalog of the program: a recipe displayed for
some query is displayed again for the query made of its own ingredients
joined with commas. -/
theorem searchRecipes_round_trip (query : JSString) (r : Recipe)
    (h : r ∈ searchRecipes query) : r ∈ searchRecipes (join r.ingredients) :=
  catalog_round_trip r (searchRecipes_subset query r h)

theorem searchRecipes_round_trip_witness :
    (recipes.get ⟨3, by decide⟩) ∈ searchRecipes "garlic , ONION ".toList ∧
      (recipes.get ⟨3, by decide⟩) ∈
        searchRecipes (join (recipes.get ⟨3, by decide⟩).ingredients) :=
  ⟨by decide, searchRecipes_round_trip "garlic , ONION ".toList _ (by decide)⟩

/-- C9: a query whose trimmed text is not empty and one of whose comma
separated tokens is empty after trimming keeps that empty token, and the
search over the catalog displays no recipe. -/
theorem searchRecipes_empty_token (query : JSString) (h : trim query ≠ [])
    (ht : ∃ t ∈ split query, trim t = []) :
    [] ∈ searchIngredients query ∧ searchRecipes query = [] := by
  have hmem : ([] : JSString) ∈ specTokens query := by
    obtain ⟨t, ht1, ht2⟩ := ht
    unfold specTokens
    refine List.mem_map.mpr ⟨t, ht1, ?_⟩
    rw [ht2]
    rfl
  refine ⟨by rw [searchIngredients_eq_specTokens]; exact hmem, ?_⟩
  rw [searchRecipes_eq_filter query h, List.filter_eq_nil_iff]
  intro r hr hall
  rw [List.all_eq_true] at hall
  have := hall [] hmem
  exact catalog_no_empty_ingredient r hr (by simpa using this)

theorem searchRecipes_empty_token_witness :
    trim "tomato,,basil".toList ≠ [] ∧ (∃ t ∈ split "tomato,,basil".toList, trim t = []) ∧
      [] ∈ searchIngredients "tomato,,basil".toList ∧
      searchRecipes "tomato,,basil".toList = [] :=
  ⟨by decide, ⟨[], by decide, by decide⟩,
    searchRecipes_empty_token "tomato,,basil".toList (by decide) ⟨[], by decide, by decide⟩⟩

/-! ## Favourites: the array operations -/

theorem indexOfFrom_eq_neg_one {x : Int} {a : List Int} {k : Nat} :
    indexOfFrom x a k = -1 ↔ x ∉ a := by
  induction a generalizing k with
  | nil => simp [indexOfFrom]
  | cons y ys ih =>
    unfold indexOfFrom
    by_cases h : y = x
    · subst h
      simp
    · simp only [h, ↓reduceIte, List.mem_cons, ih]
      constructor
      · intro h1 h2
        rcases h2 with h2 | h2
        · exact h h2.symm
        · exact h1 h2
      · intro h1 h2
        exact h1 (Or.inr h2)

theorem indexOfFrom_mem {x : Int} {a : List Int} {k : Nat} (h : x ∈ a) :
    indexOfFrom x a k = ((a.indexOf x + k : Nat) : Int) := by
  induction a generalizing k with
  | nil => simp at h
  | cons y ys ih =>
    unfold indexOfFrom
    by_cases hy : y = x
    · subst hy
      simp
    · have hx : x ∈ ys := by
        rcases List.mem_cons.mp h with h1 | h1
        · exact absurd h1.symm hy
        · exact h1
      have hne : ¬ x = y := fun e => hy e.symm
      simp only [hy, ↓reduceIte, ih hx, List.indexOf_cons_ne _ (Ne.symm hne)]
      congr 1
      omega

theorem indexOf_eq_neg_one {a : List Int} {x : Int} : indexOf a x = -1 ↔ x ∉ a :=
  indexOfFrom_eq_neg_one

theorem splice_indexOf {a : List Int} {x : Int} (h : x ∈ a) :
    splice a (indexOf a x) 1 = a.erase x := by
  have hlt : a.indexOf x < a.length := List.indexOf_lt_length.mpr h
  unfold splice indexOf
  rw [indexOfFrom_mem h]
  simp only [Nat.add_zero]
  have h1 : ¬ ((a.indexOf x : Nat) : Int) < 0 := by omega
  have h2 : min ((a.indexOf x : Nat) : Int) (a.length : Int) = (a.indexOf x : Nat) := by omega
  have h3 : min (max (1 : Int) 0) ((a.length : Int) - (a.indexOf x : Nat)) = 1 := by omega
  simp only [h1, ↓reduceIte, h2, h3, Int.toNat_ofNat, Int.toNat_one]
  rw [← List.eraseIdx_indexOf_eq_erase, List.eraseIdx_eq_take_drop_succ]

/-! ## Favourites: the handlers -/

theorem isFavorite_iff (favorites : List Int) (recipeId : Int) :
    isFavorite favorites recipeId = true ↔ recipeId ∈ favorites := by
  unfold isFavorite
  simp

theorem toggleFavorite_absent (s : Store) (recipeId : Int) (h : recipeId ∉ s.favorites) :
    toggleFavorite s recipeId =
      ({ favorites := s.favorites ++ [recipeId],
         stored := some (stringify (s.favorites ++ [recipeId])) },
        "Remove from Favorites") := by
  unfold toggleFavorite
  simp only [indexOf_eq_neg_one.mpr h, ↓reduceIte, push]

theorem toggleFavorite_present (s : Store) (recipeId : Int) (h : recipeId ∈ s.favorites) :
    toggleFavorite s recipeId =
      ({ favorites := s.favorites.erase recipeId,
         stored := some (stringify (s.favorites.erase recipeId)) },
        "Add to Favorites") := by
  have hne : ¬ indexOf s.favorites recipeId = -1 := fun e => indexOf_eq_neg_one.mp e h
  unfold toggleFavorite
  simp only [hne, ↓reduceIte, splice_indexOf h]

theorem removeFromFavorites_eq (s : Store) (recipeId : Int) :
    removeFromFavorites s recipeId =
      { favorites := s.favorites.erase recipeId,
        stored := some (stringify (s.favorites.erase recipeId)) } := by
  unfold removeFromFavorites
  by_cases h : recipeId ∈ s.favorites
  · have hne : indexOf s.favorites recipeId ≠ -1 := fun e => indexOf_eq_neg_one.mp e h
    simp only [hne, ne_eq, not_false_eq_true, ↓reduceIte, splice_indexOf h]
  · simp only [indexOf_eq_neg_one.mpr h, ne_eq, not_true_eq_false, ↓reduceIte,
      List.erase_of_not_mem h]

theorem toggleFavorite_nodup (s : Store) (recipeId : Int) (h : s.favorites.Nodup) :
    (toggleFavorite s recipeId).1.favorites.Nodup := by
  by_cases hm : recipeId ∈ s.favorites
  · rw [toggleFavorite_present s recipeId hm]
    exact h.erase recipeId
  · rw [toggleFavorite_absent s recipeId hm]
    exact List.Nodup.append h (List.nodup_singleton _) (by simpa using hm)

theorem removeFromFavorites_nodup (s : Store) (recipeId : Int) (h : s.favorites.Nodup) :
    (removeFromFavorites s recipeId).favorites.Nodup := by
  rw [removeFromFavorites_eq]
  exact h.erase recipeId

theorem run_nodup (events : List Event) :
    ∀ s : Store, s.favorites.Nodup → (run s events).favorites.Nodup := by
  induction events with
  | nil => intro s h; exact h
  | cons e es ih =>
    intro s h
    unfold run
    rw [List.foldl_cons]
    apply ih
    cases e with
    | toggle recipeId => exact toggleFavorite_nodup s recipeId h
    | remove recipeId => exact removeFromFavorites_nodup s recipeId h

/-- C3: on a favourites list without duplicates, `toggleFavorite` appends an
absent id at the end, sets the button to "Remove from Favorites" and the
recipe is then a favourite; it removes a present id, keeping the other ids in
their order, sets the button to "Add to Favorites" and the id is then no
longer a member.  From the empty list, toggling 1 gives `[1]` and toggling 1
again gives `[]`. -/
theorem toggleFavorite_spec (s : Store) (recipeId : Int) (h : s.favorites.Nodup) :
    (recipeId ∉ s.favorites →
        (toggleFavorite s recipeId).1.favorites = s.favorites ++ [recipeId] ∧
        (toggleFavorite s recipeId).2 = "Remove from Favorites" ∧
        isFavorite (toggleFavorite s recipeId).1.favorites recipeId = true) ∧
      (recipeId ∈ s.favorites →
        (toggleFavorite s recipeId).1.favorites = s.favorites.filter (· ≠ recipeId) ∧
        (toggleFavorite s recipeId).2 = "Add to Favorites" ∧
        isFavorite (toggleFavorite s recipeId).1.favorites recipeId = false ∧
        recipeId ∉ (toggleFavorite s recipeId).1.favorites) ∧
      (toggleFavorite emptyStore 1).1.favorites = [1] ∧
      (toggleFavorite emptyStore 1).2 = "Remove from Favorites" ∧
      (toggleFavorite (toggleFavorite emptyStore 1).1 1).1.favorites = [] ∧
      (toggleFavorite (toggleFavorite emptyStore 1).1 1).2 = "Add to Favorites" := by
  refine ⟨?_, ?_, by decide, by decide, by decide, by decide⟩
  · intro hm
    rw [toggleFavorite_absent s recipeId hm]
    simp [isFavorite]
  · intro hm
    rw [toggleFavorite_present s recipeId hm]
    have hnot : recipeId ∉ s.favorites.erase recipeId := fun hx =>
      ((List.Nodup.mem_erase_iff h).mp hx).1 rfl
    refine ⟨?_, rfl, ?_, hnot⟩
    · rw [List.Nodup.erase_eq_filter h]
      apply List.filter_congr
      intro x _
      by_cases hx : x = recipeId <;> simp [hx]
    · simpa [isFavorite] using hnot

theorem toggleFavorite_spec_witness :
    ([3, 1, 2] : List Int).Nodup ∧
      (toggleFavorite ⟨[3, 1, 2], none⟩ 1).1.favorites = [3, 2] ∧
      (toggleFavorite ⟨[3, 1, 2], none⟩ 1).2 = "Add to Favorites" ∧
      (toggleFavorite ⟨[3, 1, 2], none⟩ 7).1.favorites = [3, 1, 2, 7] ∧
      (toggleFavorite ⟨[3, 1, 2], none⟩ 7).2 = "Remove from Favorites" :=
  ⟨by decide,
    (((toggleFavorite_spec ⟨[3, 1, 2], none⟩ 1 (by decide)).2.1 (by decide)).1.trans
      (by decide)),
    ((toggleFavorite_spec ⟨[3, 1, 2], none⟩ 1 (by decide)).2.1 (by decide)).2.1,
    ((toggleFavorite_spec ⟨[3, 1, 2], none⟩ 7 (by decide)).1 (by decide)).1,
    ((toggleFavorite_spec ⟨[3, 1, 2], none⟩ 7 (by decide)).1 (by decide)).2.1⟩

/-- C10: a favourites list without duplicates still has none after
`toggleFavorite` or `removeFromFavorites` on any id, hence after any sequence
of clicks; in particular every list reached from the empty store is free of
duplicates. -/
theorem favorites_nodup (s : Store) (recipeId : Int) (events : List Event)
    (h : s.favorites.Nodup) :
    (toggleFavorite s recipeId).1.favorites.Nodup ∧
      (removeFromFavorites s recipeId).favorites.Nodup ∧
      (run s events).favorites.Nodup ∧
      (run emptyStore events).favorites.Nodup :=
  ⟨toggleFavorite_nodup s recipeId h, removeFromFavorites_nodup s recipeId h,
    run_nodup events s h, run_nodup events emptyStore List.nodup_nil⟩

theorem favorites_nodup_witness :
    ([3, 1, 2] : List Int).Nodup ∧
      (toggleFavorite ⟨[3, 1, 2], none⟩ 1).1.favorites.Nodup ∧
      (removeFromFavorites ⟨[3, 1, 2], none⟩ 1).favorites.Nodup ∧
      (run ⟨[3, 1, 2], none⟩ [.toggle 4, .remove 3, .toggle 4, .toggle 3]).favorites.Nodup ∧
      (run emptyStore [.toggle 4, .remove 3, .toggle 4, .toggle 3]).favorites.Nodup :=
  ⟨by decide,
    favorites_nodup ⟨[3, 1, 2], none⟩ 1 [.toggle 4, .remove 3, .toggle 4, .toggle 3]
      (by decide)⟩

/-- C5, as stated, fails: with favourites `[1, 2]` stored as `"[1,2]"`,
toggling 1 twice leaves `[2, 1]` stored as `"[2,1]"`; and on the list `[1, 1]`
toggling 1 twice leaves `[]`, where 1 is no longer a member. -/
theorem toggleFavorite_twice_counterexample :
    (toggleFavorite (toggleFavorite ⟨[1, 2], some "[1,2]".toList⟩ 1).1 1).1 =
        ⟨[2, 1], some "[2,1]".toList⟩ ∧
      stringify [1, 2] = "[1,2]".toList ∧
      (toggleFavorite (toggleFavorite ⟨[1, 2], some "[1,2]".toList⟩ 1).1 1).1.stored ≠
        some "[1,2]".toList ∧
      stringify [1, 1] = "[1,1]".toList ∧
      isFavorite [1, 1] 1 = true ∧
      (toggleFavorite (toggleFavorite ⟨[1, 1], some "[1,1]".toList⟩ 1).1 1).1.favorites = [] ∧
      isFavorite
        (toggleFavorite (toggleFavorite ⟨[1, 1], some "[1,1]".toList⟩ 1).1 1).1.favorites 1 =
        false := by
  decide

/-- C5, amended: on a favourites list without duplicates whose JSON text is
the stored item, two `toggleFavorite` in a row on the same id restore the
membership of that id and of every other id.  When the id was not a favourite
the list and the stored item are what they were; when it was one, the list is
the original with that id moved to the end, and that list is what is
stored. -/
theorem toggleFavorite_twice (s : Store) (recipeId : Int) (h : s.favorites.Nodup)
    (hsync : s.stored = some (stringify s.favorites)) :
    (∀ j, isFavorite (toggleFavorite (toggleFavorite s recipeId).1 recipeId).1.favorites j =
        isFavorite s.favorites j) ∧
      (recipeId ∉ s.favorites →
        (toggleFavorite (toggleFavorite s recipeId).1 recipeId).1 = s) ∧
      (recipeId ∈ s.favorites →
        (toggleFavorite (toggleFavorite s recipeId).1 recipeId).1 =
          { favorites := s.favorites.filter (· ≠ recipeId) ++ [recipeId],
            stored := some (stringify (s.favorites.filter (· ≠ recipeId) ++ [recipeId])) }) := by
  by_cases hm : recipeId ∈ s.favorites
  · have hnot : recipeId ∉ s.favorites.erase recipeId := fun hx =>
      ((List.Nodup.mem_erase_iff h).mp hx).1 rfl
    have hfilter : s.favorites.erase recipeId = s.favorites.filter (· ≠ recipeId) := by
      rw [List.Nodup.erase_eq_filter h]
      apply List.filter_congr
      intro x _
      by_cases hx : x = recipeId <;> simp [hx]
    have e : (toggleFavorite (toggleFavorite s recipeId).1 recipeId).1 =
        { favorites := s.favorites.erase recipeId ++ [recipeId],
          stored := some (stringify (s.favorites.erase recipeId ++ [recipeId])) } := by
      rw [toggleFavorite_present s recipeId hm, toggleFavorite_absent _ recipeId hnot]
    refine ⟨?_, fun hn => absurd hm hn, fun _ => by rw [e, hfilter]⟩
    intro j
    rw [e]
    rw [Bool.eq_iff_iff, isFavorite_iff, isFavorite_iff, List.mem_append,
      List.mem_singleton, List.Nodup.mem_erase_iff h]
    constructor
    · rintro (⟨_, hj⟩ | rfl)
      · exact hj
      · exact hm
    · intro hj
      by_cases hji : j = recipeId
      · exact Or.inr hji
      · exact Or.inl ⟨hji, hj⟩
  · have hin : recipeId ∈ s.favorites ++ [recipeId] := by simp
    have e : (toggleFavorite (toggleFavorite s recipeId).1 recipeId).1 = s := by
      rw [toggleFavorite_absent s recipeId hm, toggleFavorite_present _ recipeId hin]
      simp only [List.erase_append_right _ hm, List.erase_cons_head, List.append_nil]
      rw [← hsync]
    exact ⟨fun j => by rw [e], fun _ => e, fun hp => absurd hp hm⟩

theorem toggleFavorite_twice_witness :
    ([1, 2] : List Int).Nodup ∧
      (⟨[1, 2], some "[1,2]".toList⟩ : Store).stored = some (stringify [1, 2]) ∧
      (toggleFavorite (toggleFavorite ⟨[1, 2], some "[1,2]".toList⟩ 1).1 1).1 =
        { favorites := [2, 1], stored := some (stringify [2, 1]) } ∧
      (toggleFavorite (toggleFavorite ⟨[1, 2], some "[1,2]".toList⟩ 5).1 5).1 =
        ⟨[1, 2], some "[1,2]".toList⟩ :=
  ⟨by decide, by decide,
    (toggleFavorite_twice ⟨[1, 2], some "[1,2]".toList⟩ 1 (by decide) (by decide)).2.2
      (by decide),
    (toggleFavorite_twice ⟨[1, 2], some "[1,2]".toList⟩ 5 (by decide) (by decide)).2.1
      (by decide)⟩

/-- C7, as stated, fails: on a first visit (no favourite, nothing stored)
`removeFromFavorites` on id 1 stores the text `"[]"` where the key was absent;
and with favourites `[1]` while the stored item holds `"[1,2]"`, removing the
absent id 5 overwrites the stored item with `"[1]"`. -/
theorem removeFromFavorites_absent_counterexample :
    (1 : Int) ∉ emptyStore.favorites ∧
      removeFromFavorites emptyStore 1 = ⟨[], some "[]".toList⟩ ∧
      (removeFromFavorites emptyStore 1).stored ≠ emptyStore.stored ∧
      (5 : Int) ∉ (⟨[1], some "[1,2]".toList⟩ : Store).favorites ∧
      removeFromFavorites ⟨[1], some "[1,2]".toList⟩ 5 = ⟨[1], some "[1]".toList⟩ ∧
      (removeFromFavorites ⟨[1], some "[1,2]".toList⟩ 5).stored ≠ some "[1,2]".toList := by
  decide

/-- C7, amended: for an id that is not in the favourites list,
`removeFromFavorites` leaves the list as it is and stores the JSON text of
that list; so the stored item is unchanged exactly when it already was that
text, and then the whole store is unchanged. -/
theorem removeFromFavorites_absent (s : Store) (recipeId : Int)
    (h : recipeId ∉ s.favorites) :
    (removeFromFavorites s recipeId).favorites = s.favorites ∧
      (removeFromFavorites s recipeId).stored = some (stringify s.favorites) ∧
      ((removeFromFavorites s recipeId).stored = s.stored ↔
        s.stored = some (stringify s.favorites)) ∧
      (s.stored = some (stringify s.favorites) → removeFromFavorites s recipeId = s) := by
  rw [removeFromFavorites_eq, List.erase_of_not_mem h]
  refine ⟨rfl, rfl, ⟨fun e => e.symm, fun e => e.symm⟩, fun e => ?_⟩
  rw [← e]

theorem removeFromFavorites_absent_witness :
    (5 : Int) ∉ (⟨[1, 2], some "[1,2]".toList⟩ : Store).favorites ∧
      removeFromFavorites ⟨[1, 2], some "[1,2]".toList⟩ 5 = ⟨[1, 2], some "[1,2]".toList⟩ :=
  ⟨by decide,
    (removeFromFavorites_absent ⟨[1, 2], some "[1,2]".toList⟩ 5 (by decide)).2.2.2
      (by decide)⟩

/-! ## JSON: reading back what `stringify` writes -/

theorem digitChar_spec (k : Nat) (h : k < 10) :
    (Nat.digitChar k).isDigit = true ∧ (Nat.digitChar k).toNat - 48 = k ∧
      ((Nat.digitChar k == '0') = true → k = 0) := by
  interval_cases k <;> decide

theorem takeDigits_digit (c : Char) (rest : List Char) (acc count : Nat)
    (h : c.isDigit = true) :
    takeDigits (c :: rest) acc count = takeDigits rest (acc * 10 + (c.toNat - 48)) (count + 1) := by
  rw [takeDigits]
  simp only [h, ↓reduceIte]

theorem takeDigits_stop (c : Char) (rest : List Char) (acc count : Nat)
    (h : c.isDigit = false) :
    takeDigits (c :: rest) acc count = (acc, count, c :: rest) := by
  rw [takeDigits]
  simp [h]

theorem takeDigits_digits (l : List Char) (hl : ∀ c ∈ l, c.isDigit = true) :
    ∀ (rest : List Char) (acc count : Nat),
      takeDigits (l ++ rest) acc count =
        takeDigits rest (acc * 10 ^ l.length + digitsValue l) (count + l.length) := by
  induction l with
  | nil => intro rest acc count; simp [digitsValue]
  | cons c l ih =>
    intro rest acc count
    rw [List.cons_append, takeDigits_digit _ _ _ _ (hl c (List.mem_cons_self _ _)),
      ih (fun d hd => hl d (List.mem_cons_of_mem _ hd)), digitsValue, List.length_cons,
      Nat.pow_succ]
    congr 1
    · rw [Nat.add_mul, Nat.mul_assoc, Nat.add_assoc, Nat.mul_comm 10]
    · omega

theorem digitsValue_append (l m : List Char) :
    digitsValue (l ++ m) = digitsValue l * 10 ^ m.length + digitsValue m := by
  induction l with
  | nil => simp [digitsValue]
  | cons c l ih =>
    rw [List.cons_append, digitsValue, digitsValue, ih, List.length_append, Nat.pow_add,
      Nat.add_mul, Nat.mul_assoc, Nat.add_assoc]

theorem digitsValue_zeros (zs : List Char) (h : ∀ c ∈ zs, (c == '0') = true) :
    digitsValue zs = 0 := by
  induction zs with
  | nil => rfl
  | cons c zs ih =>
    have hc : c = '0' := by simpa using h c (List.mem_cons_self _ _)
    have h48 : ('0' : Char).toNat - 48 = 0 := by decide
    rw [digitsValue, ih (fun d hd => h d (List.mem_cons_of_mem _ hd)), hc, h48]
    simp

/-- The digits `Nat.toDigitsCore` puts in front of `ds`: they are not empty,
they are decimal digits whose value is `n`, and the first one is `0` only for
`n = 0`, which is written as the single digit `0`. -/
theorem toDigitsCore_spec (fuel : Nat) : ∀ (n : Nat) (ds : List Char), n < fuel →
    ∃ pre : List Char, Nat.toDigitsCore 10 fuel n ds = pre ++ ds ∧
      (∃ c tl, pre = c :: tl ∧ ((c == '0') = true → n = 0 ∧ tl = [])) ∧
      (∀ c ∈ pre, c.isDigit = true) ∧ digitsValue pre = n := by
  induction fuel with
  | zero => intro n ds h; omega
  | succ fuel ih =>
    intro n ds h
    have hd := digitChar_spec (n % 10) (Nat.mod_lt _ (by decide))
    rw [Nat.toDigitsCore]
    by_cases h0 : n / 10 = 0
    · simp only [h0, ↓reduceIte]
      have hn : n % 10 = n := Nat.mod_eq_of_lt (by omega)
      refine ⟨[Nat.digitChar (n % 10)], rfl, ⟨_, [], rfl, fun e => ?_⟩, ?_, ?_⟩
      · exact ⟨by have := hd.2.2 e; omega, rfl⟩
      · intro c hc
        rw [List.mem_singleton.mp hc]
        exact hd.1
      · have := hd.2.1
        simp only [digitsValue, List.length_nil, Nat.pow_zero, Nat.mul_one, Nat.add_zero]
        omega
    · simp only [h0, ↓reduceIte]
      obtain ⟨pre, e1, ⟨c, tl, e2, hz⟩, hdig, hval⟩ :=
        ih (n / 10) (Nat.digitChar (n % 10) :: ds) (by omega)
      refine ⟨pre ++ [Nat.digitChar (n % 10)], by rw [e1]; simp,
        ⟨c, tl ++ [Nat.digitChar (n % 10)], by rw [e2]; simp, fun e => ?_⟩, ?_, ?_⟩
      · exact absurd (hz e).1 h0
      · intro d hd'
        rcases List.mem_append.mp hd' with h1 | h1
        · exact hdig d h1
        · rw [List.mem_singleton.mp h1]
          exact hd.1
      · rw [digitsValue_append, hval]
        simp only [digitsValue, List.length_singleton, List.length_nil, Nat.pow_zero,
          Nat.mul_one, Nat.add_zero, hd.2.1, Nat.pow_one]
        have := Nat.div_add_mod n 10
        omega

theorem toDigits_spec (n : Nat) :
    (∃ c tl, Nat.toDigits 10 n = c :: tl ∧ ((c == '0') = true → n = 0 ∧ tl = [])) ∧
      (∀ c ∈ Nat.toDigits 10 n, c.isDigit = true) ∧ digitsValue (Nat.toDigits 10 n) = n := by
  obtain ⟨pre, e1, h1, h2, h3⟩ := toDigitsCore_spec (n + 1) n [] (by omega)
  rw [List.append_nil] at e1
  have hpre : Nat.toDigits 10 n = pre := e1
  rw [hpre]
  exact ⟨h1, h2, h3⟩

theorem digit_char (c : Char) (h : c.isDigit = true) :
    (c == '-') = false ∧ isJSONWhiteSpace c = false ∧ (c == '[') = false ∧
      (c == '{') = false ∧ (c == '"') = false ∧ (c == 'n') = false ∧ (c == 't') = false ∧
      (c == 'f') = false ∧ (c == ']') = false := by
  have hws : isJSONWhiteSpace c = false := by
    rw [Bool.eq_false_iff]
    intro hw
    unfold isJSONWhiteSpace at hw
    simp only [Bool.or_eq_true, beq_iff_eq] at hw
    rcases hw with ((rfl | rfl) | rfl) | rfl <;> revert h <;> decide
  refine ⟨?_, hws, ?_, ?_, ?_, ?_, ?_, ?_, ?_⟩ <;>
    (rw [beq_eq_false_iff_ne]; rintro rfl; revert h; decide)

theorem follow_char (d : Char) (hd : d = ',' ∨ d = ']') :
    d.isDigit = false ∧ (d == '.') = false ∧ (d == 'e' || d == 'E') = false ∧
      isJSONWhiteSpace d = false := by
  rcases hd with rfl | rfl <;> decide

theorem parseFraction_follow (d : Char) (rest : List Char) (hd : d = ',' ∨ d = ']') :
    parseFraction (d :: rest) = some (0, 0, d :: rest) := by
  unfold parseFraction
  simp [(follow_char d hd).2.1]

theorem parseExponent_follow (d : Char) (rest : List Char) (hd : d = ',' ∨ d = ']') :
    parseExponent (d :: rest) = some (0, d :: rest) := by
  have h := (follow_char d hd).2.2.1
  unfold parseExponent
  simp only [h]
  simp

theorem decimalValue_integer (negative : Bool) (m : Nat) :
    decimalValue negative m 0 0 0 = roundToDouble negative m 1 := by
  unfold decimalValue
  simp

theorem decimalValue_scaled (negative : Bool) (a b count z : Nat) :
    decimalValue negative a b count ((count + z : Nat) : Int) =
      roundToDouble negative ((a * 10 ^ count + b) * 10 ^ z) 1 := by
  unfold decimalValue
  have h1 : (((count + z : Nat) : Int) - (count : Int)).toNat = z := by omega
  have h2 : (-(((count + z : Nat) : Int) - (count : Int))).toNat = 0 := by omega
  simp only [h1, h2, Nat.pow_zero]

/-- Plain digits followed by a comma or a closing bracket are read as the
integer they write. -/
theorem parseNumber_plain (negative : Bool) (m : Nat) (d : Char) (rest : List Char)
    (hd : d = ',' ∨ d = ']') :
    parseNumber ((if negative then ['-'] else []) ++ (Nat.toDigits 10 m ++ d :: rest)) =
      some (roundToDouble negative m 1, d :: rest) := by
  obtain ⟨⟨c, tl, e, hz⟩, hdig, hval⟩ := toDigits_spec m
  have hc : c.isDigit = true := hdig c (by rw [e]; exact List.mem_cons_self _ _)
  have hread : (if c == '0' then (0, 1, tl ++ d :: rest)
      else takeDigits (c :: (tl ++ d :: rest)) 0 0).1 = m ∧
      (if c == '0' then (0, 1, tl ++ d :: rest)
      else takeDigits (c :: (tl ++ d :: rest)) 0 0).2.2 = d :: rest := by
    by_cases h0 : (c == '0') = true
    · obtain ⟨hm, htl⟩ := hz h0
      simp only [h0, ↓reduceIte, htl, hm, List.nil_append, and_self]
    · simp only [h0, Bool.false_eq_true, ↓reduceIte]
      rw [← List.cons_append, ← e, takeDigits_digits _ hdig,
        takeDigits_stop _ _ _ _ (follow_char d hd).1, hval]
      simp
  have hne : (some c == some '-') = false := by
    have := (digit_char c hc).1
    rw [beq_eq_false_iff_ne] at this ⊢
    intro h
    exact this (Option.some.inj h)
  rw [e, List.cons_append]
  unfold parseNumber
  cases negative with
  | true =>
    simp only [↓reduceIte, List.singleton_append, List.head?_cons, beq_self_eq_true,
      List.tail_cons, hc, Bool.not_true, Bool.false_eq_true, hread.1, hread.2,
      parseFraction_follow d rest hd, parseExponent_follow d rest hd, decimalValue_integer]
  | false =>
    simp only [Bool.false_eq_true, ↓reduceIte, List.nil_append, List.head?_cons, hne, hc,
      Bool.not_true, hread.1, hread.2, parseFraction_follow d rest hd,
      parseExponent_follow d rest hd, decimalValue_integer]

theorem rdropWhile_decomp (p : Char → Bool) (l : List Char) :
    ∃ zs, l = l.rdropWhile p ++ zs ∧ ∀ c ∈ zs, p c = true := by
  induction l using List.reverseRecOn with
  | nil => exact ⟨[], rfl, by simp⟩
  | append_singleton l c ih =>
    by_cases hc : p c = true
    · obtain ⟨zs, e, hz⟩ := ih
      refine ⟨zs ++ [c], ?_, ?_⟩
      · rw [List.rdropWhile_concat_pos _ _ _ hc, ← List.append_assoc, ← e]
      · intro d hd
        rcases List.mem_append.mp hd with h | h
        · exact hz d h
        · rw [List.mem_singleton.mp h]
          exact hc
    · exact ⟨[], by rw [List.rdropWhile_concat_neg _ _ _ hc, List.append_nil], by simp⟩

theorem rdropWhile_cons_of_neg (p : Char → Bool) (c : Char) (l : List Char)
    (h : ¬ p c = true) : (c :: l).rdropWhile p = c :: l.rdropWhile p := by
  induction l using List.reverseRecOn with
  | nil =>
    have := List.rdropWhile_concat_neg p [] c h
    simpa using this
  | append_singleton l d ih =>
    by_cases hd : p d = true
    · rw [← List.cons_append, List.rdropWhile_concat_pos _ _ _ hd,
        List.rdropWhile_concat_pos _ _ _ hd, ih]
    · rw [← List.cons_append, List.rdropWhile_concat_neg _ _ _ hd,
        List.rdropWhile_concat_neg _ _ _ hd, List.cons_append]

theorem exponent_char :
    ('e' : Char).isDigit = false ∧ ('.' : Char).isDigit = false := by
  decide

/-- A digit, further digits after a dot when there are some, and an exponent
`e+` followed by a comma or a closing bracket are read as the integer they
write. -/
theorem parseNumber_exponent (negative : Bool) (d : Char) (frac : List Char) (z : Nat)
    (f : Char) (rest : List Char) (hd : d.isDigit = true)
    (hfrac : ∀ c ∈ frac, c.isDigit = true) (hf : f = ',' ∨ f = ']') :
    parseNumber ((if negative then ['-'] else []) ++
        (d :: ((if frac = [] then [] else '.' :: frac) ++
          'e' :: '+' :: (Nat.toDigits 10 (frac.length + z) ++ f :: rest)))) =
      some (roundToDouble negative (digitsValue (d :: frac) * 10 ^ z) 1, f :: rest) := by
  obtain ⟨⟨c, tl, e, _⟩, hdig, hval⟩ := toDigits_spec (frac.length + z)
  have hexp : parseExponent ('e' :: '+' :: (Nat.toDigits 10 (frac.length + z) ++ f :: rest)) =
      some (((frac.length + z : Nat) : Int), f :: rest) := by
    have hlen : (Nat.toDigits 10 (frac.length + z)).length ≠ 0 := by rw [e]; simp
    unfold parseExponent
    simp only [show (('e' : Char) == 'e' || ('e' : Char) == 'E') = true by decide, ↓reduceIte,
      List.head?_cons, show (some '+' == some '-') = false by decide,
      show (some '+' == some '+') = true by decide, Bool.or_true, List.tail_cons,
      takeDigits_digits _ hdig, takeDigits_stop _ _ _ _ (follow_char f hf).1,
      Nat.zero_mul, Nat.zero_add, hlen, hval, Bool.false_eq_true]
  have hfracRead : parseFraction ((if frac = [] then [] else '.' :: frac) ++
      'e' :: '+' :: (Nat.toDigits 10 (frac.length + z) ++ f :: rest)) =
      some (digitsValue frac, frac.length,
        'e' :: '+' :: (Nat.toDigits 10 (frac.length + z) ++ f :: rest)) := by
    cases frac with
    | nil =>
      unfold parseFraction
      simp [digitsValue]
    | cons c' fr =>
      have hne : (c' :: fr).length ≠ 0 := by simp
      have key : ∀ X : List Char, takeDigits ((c' :: fr) ++ 'e' :: X) 0 0 =
          (digitsValue (c' :: fr), (c' :: fr).length, 'e' :: X) := by
        intro X
        rw [takeDigits_digits _ hfrac, takeDigits_stop _ _ _ _ exponent_char.1]
        simp
      show parseFraction ('.' :: ((c' :: fr) ++ 'e' :: _)) = _
      unfold parseFraction
      simp only [beq_self_eq_true, ↓reduceIte, key, hne]
  have hread : ∀ tl' : List Char,
      (∃ g t, tl' = g :: t ∧ g.isDigit = false) →
      (if d == '0' then (0, 1, tl') else takeDigits (d :: tl') 0 0).1 = d.toNat - 48 ∧
      (if d == '0' then (0, 1, tl') else takeDigits (d :: tl') 0 0).2.2 = tl' := by
    rintro tl' ⟨g, t, rfl, hg⟩
    by_cases h0 : (d == '0') = true
    · have : d = '0' := by simpa using h0
      subst this
      refine ⟨?_, ?_⟩ <;> simp only [beq_self_eq_true, ↓reduceIte]
      decide
    · simp only [h0, Bool.false_eq_true, ↓reduceIte]
      rw [takeDigits_digit _ _ _ _ hd, takeDigits_stop _ _ _ _ hg]
      simp
  have htail : ∃ g t, (if frac = [] then [] else '.' :: frac) ++
      'e' :: '+' :: (Nat.toDigits 10 (frac.length + z) ++ f :: rest) = g :: t ∧
      g.isDigit = false := by
    by_cases hfr : frac = []
    · exact ⟨'e', '+' :: (Nat.toDigits 10 (frac.length + z) ++ f :: rest), by simp [hfr],
        exponent_char.1⟩
    · exact ⟨'.', frac ++ 'e' :: '+' :: (Nat.toDigits 10 (frac.length + z) ++ f :: rest),
        by simp [hfr], exponent_char.2⟩
  obtain ⟨hr1, hr2⟩ := hread _ htail
  have hne : (some d == some '-') = false := by
    have := (digit_char d hd).1
    rw [beq_eq_false_iff_ne] at this ⊢
    intro h
    exact this (Option.some.inj h)
  have hvalue : decimalValue negative (d.toNat - 48) (digitsValue frac) frac.length
      ((frac.length + z : Nat) : Int) =
      roundToDouble negative (digitsValue (d :: frac) * 10 ^ z) 1 := by
    rw [decimalValue_scaled, digitsValue]
  unfold parseNumber
  cases negative with
  | true =>
    simp only [↓reduceIte, List.singleton_append, List.head?_cons, beq_self_eq_true,
      List.tail_cons, hd, Bool.not_true, Bool.false_eq_true, hr1, hr2, hfracRead, hexp,
      hvalue]
  | false =>
    simp only [Bool.false_eq_true, ↓reduceIte, List.nil_append, List.head?_cons, hne, hd,
      Bool.not_true, hr1, hr2, hfracRead, hexp, hvalue]

theorem nearestMultiple_spec (x j v : Nat) (h : nearestMultiple x j = some v) :
    roundMagnitude v 1 = some (x : ℚ) := by
  unfold nearestMultiple at h
  simp only [] at h
  split at h
  · rename_i hboth
    simp only [Bool.and_eq_true, decide_eq_true_eq] at hboth
    split at h
    · rw [← Option.some.inj h]
      exact hboth.1
    · split at h
      · rw [← Option.some.inj h]
        exact hboth.2
      · split at h
        · rw [← Option.some.inj h]
          exact hboth.1
        · rw [← Option.some.inj h]
          exact hboth.2
  · split at h
    · rename_i hlo
      rw [← Option.some.inj h]
      exact of_decide_eq_true hlo
    · split at h
      · rename_i hhi
        rw [← Option.some.inj h]
        exact of_decide_eq_true hhi
      · exact absurd h (by simp)

/-- The shortest decimal of a double rounds to that double. -/
theorem shortestDecimal_spec (x : Nat) (hx : roundMagnitude x 1 = some (x : ℚ)) :
    roundMagnitude (shortestDecimal x) 1 = some (x : ℚ) := by
  unfold shortestDecimal
  generalize (Nat.toDigits 10 x).length = j
  induction j with
  | zero => exact hx
  | succ j ih =>
    rw [shortestFrom]
    cases hn : nearestMultiple x j with
    | none => exact ih
    | some v => exact nearestMultiple_spec x j v hn

/-- The two forms of the text of a non-negative integer: the digits of its
shortest decimal, or a digit, further digits after a dot when there are some,
and the exponent that stands for the zeros left out. -/
theorem unsignedToString_form (x : Nat) :
    unsignedToString x = Nat.toDigits 10 (shortestDecimal x) ∨
      ∃ (d : Char) (frac : List Char) (z : Nat),
        d.isDigit = true ∧ (∀ c ∈ frac, c.isDigit = true) ∧
        digitsValue (d :: frac) * 10 ^ z = shortestDecimal x ∧
        unsignedToString x =
          d :: ((if frac = [] then [] else '.' :: frac) ++
            'e' :: '+' :: Nat.toDigits 10 (frac.length + z)) := by
  obtain ⟨⟨c, tl, e, hz⟩, hdig, hval⟩ := toDigits_spec (shortestDecimal x)
  unfold unsignedToString
  simp only []
  split
  · exact Or.inl rfl
  · rename_i hlong
    right
    have hc0 : ¬ (c == '0') = true := by
      intro h0
      have := (hz h0).2
      rw [e, this] at hlong
      simp at hlong
    obtain ⟨zs, hzs, hzero⟩ :=
      rdropWhile_decomp (· == '0') (Nat.toDigits 10 (shortestDecimal x))
    have hsig : (Nat.toDigits 10 (shortestDecimal x)).rdropWhile (· == '0') =
        c :: tl.rdropWhile (· == '0') := by
      rw [e, rdropWhile_cons_of_neg _ c tl hc0]
    rw [hsig] at hzs
    have hsub : ∀ d ∈ c :: tl.rdropWhile (· == '0'), d.isDigit = true := by
      intro d hd
      apply hdig d
      rw [hzs]
      exact List.mem_append_left _ hd
    have hlen : (Nat.toDigits 10 (shortestDecimal x)).length - 1 =
        (tl.rdropWhile (· == '0')).length + zs.length := by
      rw [hzs]
      simp
    have hvalue : digitsValue (c :: tl.rdropWhile (· == '0')) * 10 ^ zs.length =
        shortestDecimal x := by
      rw [← hval, hzs, digitsValue_append, digitsValue_zeros zs hzero, Nat.add_zero]
    refine ⟨c, tl.rdropWhile (· == '0'), zs.length, hsub c (List.mem_cons_self _ _),
      fun d hd => hsub d (List.mem_cons_of_mem _ hd), hvalue, ?_⟩
    rw [hsig, hlen]
    cases tl.rdropWhile (· == '0') with
    | nil => simp
    | cons d' fr => simp

/-- The text of a non-negative integer starts with a digit. -/
theorem unsignedToString_head (x : Nat) :
    ∃ c tl, unsignedToString x = c :: tl ∧ c.isDigit = true := by
  rcases unsignedToString_form x with h | ⟨d, frac, z, hd, _, _, h⟩
  · obtain ⟨⟨c, tl, e, _⟩, hdig, _⟩ := toDigits_spec (shortestDecimal x)
    exact ⟨c, tl, by rw [h, e], hdig c (by rw [e]; exact List.mem_cons_self _ _)⟩
  · exact ⟨d, _, h, hd⟩

/-- The text of a non-negative integer, followed by a comma or a closing
bracket, is read as the double its shortest decimal rounds to. -/
theorem parseNumber_unsignedToString (negative : Bool) (x : Nat) (f : Char)
    (rest : List Char) (hf : f = ',' ∨ f = ']') :
    parseNumber ((if negative then ['-'] else []) ++ (unsignedToString x ++ f :: rest)) =
      some (roundToDouble negative (shortestDecimal x) 1, f :: rest) := by
  rcases unsignedToString_form x with h | ⟨d, frac, z, hd, hfrac, hvalue, h⟩
  · rw [h]
    exact parseNumber_plain negative _ f rest hf
  · have key := parseNumber_exponent negative d frac z f rest hd hfrac hf
    rw [hvalue] at key
    rw [h, ← key]
    simp

theorem numberToString_eq (n : Int) :
    numberToString n =
      (if decide (n < 0) then ['-'] else []) ++ unsignedToString n.natAbs := by
  unfold numberToString
  by_cases h : n < 0 <;> simp [h]

theorem roundToDouble_of_isNumber (n : Int) (hn : isNumber n = true) :
    roundToDouble (decide (n < 0)) (shortestDecimal n.natAbs) 1 = .finite (n : ℚ) := by
  have hx : roundMagnitude n.natAbs 1 = some (n.natAbs : ℚ) := of_decide_eq_true hn
  unfold roundToDouble
  rw [shortestDecimal_spec n.natAbs hx]
  simp only [JSNumber.finite.injEq]
  have hcast : ((n.natAbs : Nat) : ℚ) = (((n.natAbs : Nat) : Int) : ℚ) :=
    (Int.cast_natCast n.natAbs).symm
  by_cases h : n < 0
  · simp only [h, decide_True, ↓reduceIte]
    have : ((n.natAbs : Nat) : Int) = -n := by omega
    rw [hcast, this, Int.cast_neg, neg_neg]
  · simp only [h, decide_False, Bool.false_eq_true, ↓reduceIte]
    have : ((n.natAbs : Nat) : Int) = n := by omega
    rw [hcast, this]

/-- The text of an integer that is a Number, followed by a comma or a closing
bracket, is read as that Number. -/
theorem parseNumber_numberToString (n : Int) (hn : isNumber n = true) (d : Char)
    (rest : List Char) (hd : d = ',' ∨ d = ']') :
    parseNumber (numberToString n ++ d :: rest) = some (.finite (n : ℚ), d :: rest) := by
  rw [numberToString_eq, List.append_assoc, parseNumber_unsignedToString _ _ d rest hd,
    roundToDouble_of_isNumber n hn]

theorem lead_char (c : Char) (h : c = '-' ∨ c.isDigit = true) :
    isJSONWhiteSpace c = false ∧ (c == '[') = false ∧ (c == '{') = false ∧
      (c == '"') = false ∧ (c == 'n') = false ∧ (c == 't') = false ∧ (c == 'f') = false ∧
      (c == ']') = false := by
  rcases h with rfl | h
  · decide
  · obtain ⟨_, h1, h2, h3, h4, h5, h6, h7, h8⟩ := digit_char c h
    exact ⟨h1, h2, h3, h4, h5, h6, h7, h8⟩

theorem numberToString_head (n : Int) (tail : List Char) :
    ∃ c tl, numberToString n ++ tail = c :: tl ∧ (c = '-' ∨ c.isDigit = true) := by
  obtain ⟨c, tl, e, hc⟩ := unsignedToString_head n.natAbs
  rw [numberToString_eq, e]
  by_cases h : n < 0
  · exact ⟨'-', _, by simp only [h, decide_True, ↓reduceIte]; rfl, Or.inl rfl⟩
  · exact ⟨c, _, by simp only [h, decide_False, Bool.false_eq_true, ↓reduceIte]; rfl,
      Or.inr hc⟩

theorem skipWhiteSpace_cons (c : Char) (tl : List Char) (h : isJSONWhiteSpace c = false) :
    skipWhiteSpace (c :: tl) = c :: tl := by
  unfold skipWhiteSpace
  rw [List.dropWhile_cons]
  simp [h]

theorem parseValue_numberToString (fuel : Nat) (n : Int) (hn : isNumber n = true) (d : Char)
    (rest : List Char) (hd : d = ',' ∨ d = ']') :
    parseValue (fuel + 1) (numberToString n ++ d :: rest) =
      some (.number (.finite (n : ℚ)), d :: rest) := by
  have hnum := parseNumber_numberToString n hn d rest hd
  obtain ⟨c, tl, e, hc⟩ := numberToString_head n (d :: rest)
  rw [e] at hnum ⊢
  obtain ⟨h1, h2, h3, h4, h5, h6, h7, _⟩ := lead_char c hc
  rw [parseValue, skipWhiteSpace_cons c tl h1]
  simp only [h2, h3, h4, h5, h6, h7, Bool.false_eq_true, ↓reduceIte, hnum]

theorem intercalate_cons_cons (x y : JSString) (zs : List JSString) :
    List.intercalate [','] (x :: y :: zs) = x ++ ',' :: List.intercalate [','] (y :: zs) := by
  simp [List.intercalate, List.intersperse]

theorem parseElements_numbers (xs : List Int) :
    ∀ (x : Int) (fuel : Nat) (rest : List Char), (∀ n ∈ x :: xs, isNumber n = true) →
      xs.length + 2 ≤ fuel →
      parseElements fuel
          (List.intercalate [','] ((x :: xs).map numberToString) ++ ']' :: rest) =
        some ((x :: xs).map (fun (n : Int) => JSValue.number (.finite (n : ℚ))), rest) := by
  induction xs with
  | nil =>
    intro x fuel rest hnum hf
    obtain ⟨f, rfl⟩ : ∃ f, fuel = f + 2 := ⟨fuel - 2, by omega⟩
    have e : List.intercalate [','] ([x].map numberToString) = numberToString x := by
      simp [List.intercalate, List.intersperse]
    rw [e, parseElements,
      parseValue_numberToString f x (hnum x (List.mem_cons_self _ _)) ']' rest (Or.inr rfl)]
    simp only [skipWhiteSpace_cons ']' rest (by decide)]
    simp
  | cons y ys ih =>
    intro x fuel rest hnum hf
    obtain ⟨f, rfl⟩ : ∃ f, fuel = f + 2 := ⟨fuel - 2, by omega⟩
    rw [List.map_cons, List.map_cons, intercalate_cons_cons, List.append_assoc,
      List.cons_append, parseElements,
      parseValue_numberToString f x (hnum x (List.mem_cons_self _ _)) ',' _ (Or.inl rfl)]
    simp only [skipWhiteSpace_cons ',' _ (by decide)]
    rw [← List.map_cons, ih y (f + 1) rest (fun n hn => hnum n (List.mem_cons_of_mem _ hn))
      (by simp only [List.length_cons] at hf; omega)]
    simp

theorem length_le_stringify (a : List Int) : a.length ≤ (stringify a).length := by
  have key : ∀ (xs : List Int) (x : Int),
      xs.length + 1 ≤ (List.intercalate [','] ((x :: xs).map numberToString)).length := by
    intro xs
    induction xs with
    | nil =>
      intro x
      obtain ⟨c, tl, e, _⟩ := numberToString_head x []
      rw [List.append_nil] at e
      simp [List.intercalate, List.intersperse, e]
    | cons y ys ih =>
      intro x
      rw [List.map_cons, List.map_cons, intercalate_cons_cons, List.length_append,
        List.length_cons, ← List.map_cons]
      have := ih y
      simp only [List.length_cons] at this ⊢
      omega
  cases a with
  | nil => simp
  | cons x xs =>
    have := key xs x
    unfold stringify
    simp only [List.length_cons, List.length_append, List.length_nil] at this ⊢
    omega

/-- `JSON.parse` reads the text `stringify` writes for a list of integer
Numbers back as the array of these Numbers, in their order. -/
theorem parse_stringify (a : List Int) (ha : ∀ n ∈ a, isNumber n = true) :
    JSON.parse (stringify a) = .ok (favoritesValue a) := by
  unfold JSON.parse
  cases a with
  | nil =>
    have e : stringify [] = ['[', ']'] := rfl
    rw [e]
    rfl
  | cons x xs =>
    have hlen := length_le_stringify (x :: xs)
    obtain ⟨f, hf⟩ : ∃ f, 2 * (stringify (x :: xs)).length + 2 = f + 1 := ⟨_, rfl⟩
    have hpe := parseElements_numbers xs x f [] ha (by
      simp only [List.length_cons] at hlen
      omega)
    have hform : stringify (x :: xs) =
        '[' :: (List.intercalate [','] ((x :: xs).map numberToString) ++ [']']) := rfl
    rw [hf, hform, parseValue, skipWhiteSpace_cons '[' _ (by decide)]
    obtain ⟨c, tl, e, hc⟩ := numberToString_head x
      (match xs with
        | [] => [']']
        | y :: ys => ',' :: (List.intercalate [','] ((y :: ys).map numberToString) ++ [']']))
    have hshape : List.intercalate [','] ((x :: xs).map numberToString) ++ [']'] = c :: tl := by
      rw [← e]
      cases xs with
      | nil => simp [List.intercalate, List.intersperse]
      | cons y ys =>
        rw [List.map_cons, List.map_cons, intercalate_cons_cons, List.append_assoc]
        rfl
    obtain ⟨h1, _, _, _, _, _, _, h8⟩ := lead_char c hc
    simp only [beq_self_eq_true, ↓reduceIte]
    rw [hshape, skipWhiteSpace_cons c tl h1]
    simp only [h8, Bool.false_eq_true, ↓reduceIte]
    rw [← hshape, hpe]
    simp [skipWhiteSpace, favoritesValue]

theorem favoritesValue_injective (a b : List Int)
    (h : favoritesValue a = favoritesValue b) : a = b := by
  unfold favoritesValue at h
  rw [JSValue.array.injEq] at h
  refine List.map_injective_iff.mpr ?_ h
  intro x y hxy
  rw [JSValue.number.injEq, JSNumber.finite.injEq] at hxy
  exact_mod_cast hxy

theorem loadFavorites_stringify (a : List Int) (ha : ∀ n ∈ a, isNumber n = true) :
    loadFavorites (some (stringify a)) = .ok (favoritesValue a) := by
  unfold loadFavorites
  simp only [parse_stringify a ha]
  rfl

/-! ## Favourites: what is stored, and what start-up restores -/

theorem toggleFavorite_isNumber (s : Store) (recipeId : Int)
    (hs : ∀ n ∈ s.favorites, isNumber n = true) (hid : isNumber recipeId = true) :
    ∀ n ∈ (toggleFavorite s recipeId).1.favorites, isNumber n = true := by
  by_cases hm : recipeId ∈ s.favorites
  · rw [toggleFavorite_present s recipeId hm]
    exact fun n hn => hs n (List.mem_of_mem_erase hn)
  · rw [toggleFavorite_absent s recipeId hm]
    intro n hn
    rcases List.mem_append.mp hn with h | h
    · exact hs n h
    · rw [List.mem_singleton.mp h]
      exact hid

theorem removeFromFavorites_isNumber (s : Store) (recipeId : Int)
    (hs : ∀ n ∈ s.favorites, isNumber n = true) :
    ∀ n ∈ (removeFromFavorites s recipeId).favorites, isNumber n = true := by
  rw [removeFromFavorites_eq]
  exact fun n hn => hs n (List.mem_of_mem_erase hn)

/-- C6: after `toggleFavorite` and after `removeFromFavorites`, on every
favourites list of integers, every stored item and every id (the integers
being Numbers, that is doubles), the item stored under `"favorites"` is the
JSON text of the whole list in memory, written whether or not the call changed
the list; `JSON.parse` reads it back as the array of exactly the ids in
memory, in their order, and as no other list, and the start-up line restores
that same array from it. -/
theorem stored_matches_favorites (s : Store) (recipeId : Int)
    (hs : ∀ n ∈ s.favorites, isNumber n = true) (hid : isNumber recipeId = true) :
    ((toggleFavorite s recipeId).1.stored =
          some (stringify (toggleFavorite s recipeId).1.favorites) ∧
        loadFavorites (toggleFavorite s recipeId).1.stored =
          .ok (favoritesValue (toggleFavorite s recipeId).1.favorites) ∧
        JSON.parse (stringify (toggleFavorite s recipeId).1.favorites) =
          .ok (favoritesValue (toggleFavorite s recipeId).1.favorites) ∧
        ∀ a, JSON.parse (stringify (toggleFavorite s recipeId).1.favorites) =
          .ok (favoritesValue a) → a = (toggleFavorite s recipeId).1.favorites) ∧
      ((removeFromFavorites s recipeId).stored =
          some (stringify (removeFromFavorites s recipeId).favorites) ∧
        loadFavorites (removeFromFavorites s recipeId).stored =
          .ok (favoritesValue (removeFromFavorites s recipeId).favorites) ∧
        JSON.parse (stringify (removeFromFavorites s recipeId).favorites) =
          .ok (favoritesValue (removeFromFavorites s recipeId).favorites) ∧
        ∀ a, JSON.parse (stringify (removeFromFavorites s recipeId).favorites) =
          .ok (favoritesValue a) → a = (removeFromFavorites s recipeId).favorites) := by
  have key : ∀ l : List Int, (∀ n ∈ l, isNumber n = true) → ∀ a : List Int,
      JSON.parse (stringify l) = .ok (favoritesValue a) → a = l := by
    intro l hl a h
    rw [parse_stringify l hl, Except.ok.injEq] at h
    exact (favoritesValue_injective l a h).symm
  have ht := toggleFavorite_isNumber s recipeId hs hid
  have hr := removeFromFavorites_isNumber s recipeId hs
  exact ⟨⟨rfl, loadFavorites_stringify _ ht, parse_stringify _ ht, key _ ht⟩,
    ⟨rfl, loadFavorites_stringify _ hr, parse_stringify _ hr, key _ hr⟩⟩

set_option maxRecDepth 100000 in
/-- An instance with an id written in exponent form: the favourites
`[10 ^ 21]`, toggled on the id 1, are stored as `[1e+21,1]` and read back. -/
theorem stored_matches_favorites_witness :
    (∀ n ∈ (⟨[1000000000000000000000], none⟩ : Store).favorites, isNumber n = true) ∧
      isNumber 1 = true ∧
      (toggleFavorite ⟨[1000000000000000000000], none⟩ 1).1.stored =
        some "[1e+21,1]".toList ∧
      JSON.parse (stringify (toggleFavorite ⟨[1000000000000000000000], none⟩ 1).1.favorites) =
        .ok (favoritesValue [1000000000000000000000, 1]) ∧
      (removeFromFavorites ⟨[1, 2], none⟩ 3).stored = some "[1,2]".toList :=
  ⟨by decide, by decide,
    (stored_matches_favorites ⟨[1000000000000000000000], none⟩ 1 (by decide)
      (by decide)).1.1.trans (by decide),
    (stored_matches_favorites ⟨[1000000000000000000000], none⟩ 1 (by decide)
      (by decide)).1.2.2.1.trans (by rfl),
    (stored_matches_favorites ⟨[1, 2], none⟩ 3 (by decide) (by decide)).2.1.trans
      (by decide)⟩

/-- C4: line 78 on stored texts that are not the JSON of an array.  With the
text `not json` stored the line raises the `SyntaxError` of `JSON.parse`, and
no favourites list exists; with `true` or an object stored the favourites are
that value, not a list.  Only an absent key ends with the empty list. -/
theorem loadFavorites_malformed :
    loadFavorites (some "not json".toList) = .error .syntaxError ∧
      loadFavorites (some "true".toList) = .ok (.bool true) ∧
      loadFavorites (some "\x7b\x7d".toList) = .ok (.object []) ∧
      loadFavorites none = .ok (.array []) :=
  ⟨rfl, rfl, rfl, rfl⟩

end RecipeFinder
